import Mathlib

/-!
# A memcached text-protocol cache: the cache engine of `spikes/spike6.go`

The Go program keeps one process-wide `simpleCache` (a `map[string]*cacheEntry`) and
executes command records against it, writing reply bytes to the connection.
This development embeds that engine as pure functions:

* a Go `string` / `[]byte` is a `List UInt8`;
* a Go `int` is an `Int` kept in the 64-bit two's-complement range by `wrapInt`;
* a `time.Time` is an `Int`: nanoseconds since the UNIX epoch; one command executes at a
  single instant `now`, the value of every `time.Now()` read while it runs;
* the connection written to is the list of bytes written, in order;
* a run-time failure of the Go code (negative `make` length, slice bound out of range) is `none`.

The builders and the loop of `handleConn` of the same file are embedded one iteration at a
time: an iteration receives the line that `rd.ReadLine()` returned and what the data-block
read meets (the bytes the reader has, its error, and what the allocator can supply). The
development also covers the byte tokenizer of `tokenizer/tokenizer.go` and the opcode parser
of `server/parser.go`.
-/

namespace Memcached

/-! ## Bytes, machine integers, time -/

/-- Go byte strings. -/
abbrev Bytes := List UInt8

/-- The bytes of an ASCII literal of the source. -/
def ascii (s : String) : Bytes := s.toList.map (fun c => c.toNat.toUInt8)

/-- Two's-complement wrap-around of Go's 64-bit `int` / `int64` arithmetic. -/
def wrapInt (x : Int) : Int := (x + 9223372036854775808) % 18446744073709551616 - 9223372036854775808

/-- Largest Go `int`. -/
def maxInt : Int := 9223372036854775807

/-- Source constant `maxOffset = 60 * 60 * 24 * 30`. -/
def maxOffset : Int := 60 * 60 * 24 * 30

/-- The duration `time.Second`, in nanoseconds. -/
def second : Int := 1000000000

/-- Constant `unixToInternal` of package `time`: the seconds from January 1, year 1 to the UNIX
epoch, `(1969*365 + 1969/4 - 1969/100 + 1969/400) * 86400`. -/
def unixToInternal : Int := 62135596800

/-- Function `time.Unix(sec, 0)` as an instant in nanoseconds from the UNIX epoch. The value
holds the second count `sec + unixToInternal` in an `int64`, where the sum wraps around;
`After` compares these second counts (and then the nanoseconds, here 0). -/
def timeUnix (sec : Int) : Int := (wrapInt (sec + unixToInternal) - unixToInternal) * second

/-! ## `strconv.Atoi` and the `%d` verb -/

/-- Decimal value of a run of ASCII digits read after the accumulator `acc`;
`none` at the first byte that is not a digit. -/
def parseDigits : Bytes → Nat → Option Nat
  | [], acc => some acc
  | ch :: rest, acc =>
    if 48 ≤ ch.toNat ∧ ch.toNat ≤ 57 then parseDigits rest (acc * 10 + (ch.toNat - 48)) else none

/-- Library function `strconv.Atoi` on a 64-bit platform: an optional sign `+` or `-`, then at
least one decimal digit and nothing else, the value within the range of `int`; otherwise an
error (`none`). -/
def Atoi (s : Bytes) : Option Int :=
  match s with
  | [] => none
  | ch :: rest =>
    if ch = 45 then
      match rest with
      | [] => none
      | _ :: _ =>
        match parseDigits rest 0 with
        | none => none
        | some n => if n ≤ 9223372036854775808 then some (-(n : Int)) else none
    else
      let body := if ch = 43 then rest else s
      match body with
      | [] => none
      | _ :: _ =>
        match parseDigits body 0 with
        | none => none
        | some n => if n ≤ 9223372036854775807 then some (n : Int) else none

/-- Decimal digits of `n`, most significant first, pushed in front of `acc`;
`fuel` bounds the number of digits produced. -/
def digitsAux : Nat → Nat → Bytes → Bytes
  | 0, _, acc => acc
  | fuel + 1, n, acc =>
    if n < 10 then (48 + n).toUInt8 :: acc
    else digitsAux fuel (n / 10) ((48 + n % 10).toUInt8 :: acc)

/-- The decimal numeral of a natural number. -/
def formatNat (n : Nat) : Bytes := digitsAux (n + 1) n []

/-- The verb `%d` of `fmt` applied to a Go `int`. -/
def formatInt (v : Int) : Bytes :=
  if v < 0 then 45 :: formatNat v.natAbs else formatNat v.natAbs

/-! ## Slices -/

/-- Builtin `copy(dst, src)`: the first `min (len dst) (len src)` bytes of `dst` are
overwritten; the result is the new content of `dst`. -/
def goCopy (dst src : Bytes) : Bytes := src.take dst.length ++ dst.drop src.length

/-- The content of `buf` after `copy(buf[k:], src)`. -/
def copyAt (buf : Bytes) (k : Nat) (src : Bytes) : Bytes := buf.take k ++ goCopy (buf.drop k) src

/-! ## Data model -/

/-- Source type `cacheEntry`; `creation` is a `time.Time`. -/
structure cacheEntry where
  creation : Int
  flags : Int
  expTime : Int
  dataSize : Int
  casUnique : Int
  key : Bytes
  data : Bytes
  deriving DecidableEq, Repr

/-- Source type `simpleCache`: the map from key to entry pointer, `none` where the map has
no entry. -/
structure simpleCache where
  entries : Bytes → Option cacheEntry

/-- The initial value of the global `cache`: an empty map. -/
def simpleCache.empty : simpleCache := ⟨fun _ => none⟩

/-- Method `simpleCache.Set`: `c.entries[entry.key] = entry`; the error returned is always `nil`. -/
def simpleCache.Set (c : simpleCache) (entry : cacheEntry) : simpleCache :=
  ⟨fun k => if k = entry.key then some entry else c.entries k⟩

/-- Method `simpleCache.Get`, with `now` the value of `time.Now()`: the entry of the map
unless `now.After(deadline)`; the map is not modified and the error is always `nil`. -/
def simpleCache.Get (c : simpleCache) (now : Int) (key : Bytes) : Option cacheEntry :=
  match c.entries key with
  | none => none
  | some entry =>
    let deadline : Int :=
      if entry.expTime ≤ maxOffset then entry.creation + wrapInt (entry.expTime * second)
      else timeUnix entry.expTime
    if now > deadline then none else some entry

/-- Method `simpleCache.Remove`: the entry of the map, deleted from it when present. -/
def simpleCache.Remove (c : simpleCache) (key : Bytes) : simpleCache × Option cacheEntry :=
  match c.entries key with
  | none => (c, none)
  | some entry => (⟨fun k => if k = key then none else c.entries k⟩, some entry)

/-! ## Command records -/

/-- Source type `retrievalCommand`. -/
structure retrievalCommand where
  opcode : Bytes
  keys : List Bytes
  deriving DecidableEq, Repr

/-- Source type `storageCommand`. -/
structure storageCommand where
  opcode : Bytes
  key : Bytes
  flags : Int
  expTime : Int
  dataSize : Int
  casUnique : Int
  noReply : Bool
  data : Bytes
  deriving DecidableEq, Repr

/-- Source type `deleteCommand`. -/
structure deleteCommand where
  opcode : Bytes
  key : Bytes
  noReply : Bool
  deriving DecidableEq, Repr

/-- Source type `incDecCommand`. -/
structure incDecCommand where
  opcode : Bytes
  key : Bytes
  value : Int
  noReply : Bool
  deriving DecidableEq, Repr

/-- Source type `touchCommand`. -/
structure touchCommand where
  opcode : Bytes
  key : Bytes
  expTime : Int
  noReply : Bool
  deriving DecidableEq, Repr

/-- The guarded write `if !c.noReply { w.Write(msg) }`. -/
def reply (noReply : Bool) (msg : Bytes) : Bytes := if noReply then [] else msg

/-! ## Execution of commands

Each `Execute` takes the cache and the instant `now` and returns the cache afterwards
together with the bytes written to `w`. The branches on a non-`nil` error of `cache.Get`,
`cache.Set` and `cache.Remove` are unreachable (these methods return `nil` errors only). -/

/-- The bytes written by the body of the `range c.keys` loop of `retrievalCommand.Execute`
for one key. -/
def retrievalCommand.writeKey (opcode : Bytes) (s : simpleCache) (now : Int) (v : Bytes) : Bytes :=
  match s.Get now v with
  | none => []
  | some entry =>
    (if opcode = ascii "get" then
      ascii "VALUE " ++ entry.key ++ ascii " " ++ formatInt entry.flags ++ ascii " "
        ++ formatInt entry.dataSize ++ ascii "\r\n"
    else
      ascii "VALUE " ++ entry.key ++ ascii " " ++ formatInt entry.flags ++ ascii " "
        ++ formatInt entry.dataSize ++ ascii " " ++ formatInt entry.casUnique ++ ascii "\r\n")
    ++ entry.data ++ ascii "\r\n"

/-- The `range` loop of `retrievalCommand.Execute` over the remaining keys, followed by the
final write of `END`. -/
def retrievalCommand.loop (opcode : Bytes) (s : simpleCache) (now : Int) : List Bytes → Bytes
  | [] => ascii "END\r\n"
  | v :: rest => retrievalCommand.writeKey opcode s now v ++ retrievalCommand.loop opcode s now rest

/-- Method `retrievalCommand.Execute`: the bytes written; the cache is only read. -/
def retrievalCommand.Execute (c : retrievalCommand) (s : simpleCache) (now : Int) : Bytes :=
  retrievalCommand.loop c.opcode s now c.keys

/-- The `append` / `prepend` buffer of `storageCommand.Execute`: `ndata` after
`make([]byte, oldEntry.dataSize+entry.dataSize)` and the two `copy` calls; `none` when `make`
or the slice expression fails at run time. -/
def storageCommand.concat (opcode : Bytes) (oldEntry entry : cacheEntry) : Option Bytes :=
  let n := wrapInt (oldEntry.dataSize + entry.dataSize)
  if n < 0 then none
  else
    let ndata : Bytes := List.replicate n.toNat 0
    if opcode = ascii "prepend" then
      if 0 ≤ entry.dataSize ∧ entry.dataSize ≤ n then
        some (copyAt (goCopy ndata entry.data) entry.dataSize.toNat oldEntry.data)
      else none
    else
      if 0 ≤ oldEntry.dataSize ∧ oldEntry.dataSize ≤ n then
        some (copyAt (goCopy ndata oldEntry.data) oldEntry.dataSize.toNat entry.data)
      else none

/-- The entry that `storageCommand.Execute` builds from the command record at its first
statement (`creation: time.Now()`, the other fields from the record), with the `casUnique`
that the branch taken assigns to it before it is stored. -/
def storageCommand.entry (c : storageCommand) (now : Int) (cas : Int) : cacheEntry :=
  { creation := now, key := c.key, flags := c.flags, expTime := c.expTime,
    dataSize := c.dataSize, casUnique := cas, data := c.data }

/-- Method `storageCommand.Execute`. -/
def storageCommand.Execute (c : storageCommand) (s : simpleCache) (now : Int) :
    Option (simpleCache × Bytes) :=
  if c.opcode = ascii "set" then
    some (s.Set (c.entry now 1), reply c.noReply (ascii "STORED\r\n"))
  else
    match s.Get now c.key with
    | none =>
      if c.opcode = ascii "add" then
        some (s.Set (c.entry now 1), reply c.noReply (ascii "STORED\r\n"))
      else if c.opcode = ascii "replace" then
        some (s, reply c.noReply (ascii "NOT_STORED\r\n"))
      else if c.opcode = ascii "cas" then
        some (s, reply c.noReply (ascii "NOT_FOUND\r\n"))
      else
        some (s.Set (c.entry now 1), reply c.noReply (ascii "STORED\r\n"))
    | some oldEntry =>
      if c.opcode = ascii "add" then
        some (s, reply c.noReply (ascii "NOT_STORED\r\n"))
      else if c.opcode = ascii "replace" then
        some (s.Set (c.entry now (wrapInt (oldEntry.casUnique + 1))),
          reply c.noReply (ascii "STORED\r\n"))
      else if c.opcode = ascii "cas" then
        if oldEntry.casUnique ≠ c.casUnique then
          some (s, reply c.noReply (ascii "EXISTS\r\n"))
        else
          some (s.Set (c.entry now (wrapInt (oldEntry.casUnique + 1))),
            reply c.noReply (ascii "STORED\r\n"))
      else
        match storageCommand.concat c.opcode oldEntry (c.entry now 0) with
        | none => none
        | some ndata =>
          some (s.Set { c.entry now (wrapInt (oldEntry.casUnique + 1)) with
                          dataSize := ndata.length, data := ndata },
            reply c.noReply (ascii "STORED\r\n"))

/-- Method `deleteCommand.Execute`. -/
def deleteCommand.Execute (c : deleteCommand) (s : simpleCache) : simpleCache × Bytes :=
  match s.Remove c.key with
  | (s1, none) => (s1, reply c.noReply (ascii "NOT_FOUND\r\n"))
  | (s1, some _) => (s1, reply c.noReply (ascii "DELETED\r\n"))

/-- The cache after a field of the entry that `cache.Get(key)` returned has been assigned
through the pointer and the pointer has been passed to `cache.Set`: the map holds the
modified entry under `key` and under the entry's own key. -/
def simpleCache.mutate (s : simpleCache) (key : Bytes) (entry : cacheEntry) : simpleCache :=
  simpleCache.Set ⟨fun k => if k = key then some entry else s.entries k⟩ entry

/-- Method `incDecCommand.Execute`. -/
def incDecCommand.Execute (c : incDecCommand) (s : simpleCache) (now : Int) : simpleCache × Bytes :=
  match s.Get now c.key with
  | none => (s, reply c.noReply (ascii "NOT_FOUND\r\n"))
  | some entry =>
    match Atoi entry.data with
    | none => (s, reply c.noReply (ascii "ERROR\r\n"))
    | some v =>
      let v1 : Int :=
        if c.opcode = ascii "incr" then wrapInt (v + c.value)
        else if wrapInt (v - c.value) ≥ 0 then wrapInt (v - c.value)
        else 0
      (s.mutate c.key { entry with data := formatInt v1 },
        reply c.noReply (formatInt v1 ++ ascii "\r\n"))

/-- Method `touchCommand.Execute`. -/
def touchCommand.Execute (c : touchCommand) (s : simpleCache) (now : Int) : simpleCache × Bytes :=
  match s.Get now c.key with
  | none => (s, reply c.noReply (ascii "NOT_FOUND\r\n"))
  | some entry =>
    (s.mutate c.key { entry with expTime := c.expTime }, reply c.noReply (ascii "TOUCHED\r\n"))

/-! ## Builders and the connection handler -/

/-- The pair `(Command, error)` that a builder returns: a record with a `nil` error, or `nil`
with the error made by `errors.New`. -/
inductive Built (α : Type) where
  | ok (c : α)
  | err (msg : String)
  deriving DecidableEq, Repr

/-- Source interface `Command`, with its five implementations. -/
inductive Command where
  | retrieval (c : retrievalCommand)
  | storage (c : storageCommand)
  | delete (c : deleteCommand)
  | incDec (c : incDecCommand)
  | touch (c : touchCommand)
  deriving DecidableEq, Repr

/-- Function `storageBuilder`; the `data` of the record is still `nil`. -/
def storageBuilder (tokens : List Bytes) : Built storageCommand :=
  match tokens with
  | t0 :: t1 :: t2 :: t3 :: t4 :: rest =>
    match Atoi t2 with
    | none => .err "Invalid flags"
    | some flags =>
      match Atoi t3 with
      | none => .err "Invalid expTime"
      | some expTime =>
        match Atoi t4 with
        | none => .err "Invalid dataSize"
        | some dataSize =>
          if t0 = ascii "cas" then
            match rest with
            | [] => .err "Invalid casUnique"
            | t5 :: rest5 =>
              match Atoi t5 with
              | none => .err "Invalid casUnique"
              | some casUnique =>
                match rest5 with
                | [] => .ok ⟨t0, t1, flags, expTime, dataSize, casUnique, false, []⟩
                | [t6] =>
                  if t6 = ascii "noreply" then
                    .ok ⟨t0, t1, flags, expTime, dataSize, casUnique, true, []⟩
                  else .err "Invalid noReply"
                | _ :: _ :: _ => .err "Surplus tokens in line"
          else
            match rest with
            | [] => .ok ⟨t0, t1, flags, expTime, dataSize, 0, false, []⟩
            | [t5] =>
              if t5 = ascii "noreply" then .ok ⟨t0, t1, flags, expTime, dataSize, 0, true, []⟩
              else .err "Invalid noReply"
            | _ :: _ :: _ => .err "Surplus tokens in line"
  | _ => .err "Insufficient tokens to build storageCommand"

/-- Function `retrievalBuilder`; `none` is the run-time failure of `tokens[0]` on an empty
token list. -/
def retrievalBuilder (tokens : List Bytes) : Option (Built retrievalCommand) :=
  match tokens with
  | [] => none
  | t0 :: rest => some (.ok ⟨t0, rest⟩)

/-- Function `incDecBuilder`. -/
def incDecBuilder (tokens : List Bytes) : Built incDecCommand :=
  match tokens with
  | t0 :: t1 :: t2 :: rest =>
    match Atoi t2 with
    | none => .err "Invalid value"
    | some value =>
      match rest with
      | [] => .ok ⟨t0, t1, value, false⟩
      | [t3] =>
        if t3 = ascii "noreply" then .ok ⟨t0, t1, value, true⟩ else .err "Invalid noReply"
      | _ :: _ :: _ => .err "Surplus tokens in line"
  | _ => .err "Insufficient tokens to build incDecCommand"

/-- Function `deleteBuilder`. -/
def deleteBuilder (tokens : List Bytes) : Built deleteCommand :=
  match tokens with
  | t0 :: t1 :: rest =>
    match rest with
    | [] => .ok ⟨t0, t1, false⟩
    | [t2] => if t2 = ascii "noreply" then .ok ⟨t0, t1, true⟩ else .err "Invalid noReply"
    | _ :: _ :: _ => .err "Surplus tokens in line"
  | _ => .err "Insufficient tokens to build deleteCommand"

/-- Function `touchBuilder`. -/
def touchBuilder (tokens : List Bytes) : Built touchCommand :=
  match tokens with
  | t0 :: t1 :: t2 :: rest =>
    match Atoi t2 with
    | none => .err "Invalid exptime"
    | some expTime =>
      match rest with
      | [] => .ok ⟨t0, t1, expTime, false⟩
      | [t3] =>
        if t3 = ascii "noreply" then .ok ⟨t0, t1, expTime, true⟩ else .err "Invalid noReply"
      | _ :: _ :: _ => .err "Surplus tokens in line"
  | _ => .err "Insufficient tokens to build touchCommand"

/-- A builder result seen through the `Command` interface. -/
def Built.toCommand {α : Type} (f : α → Command) : Built α → Built Command
  | .ok c => .ok (f c)
  | .err msg => .err msg

/-- Source table `builders`: the builder of an opcode, `none` where the map has no entry. The
result `none` of a builder is a run-time failure. -/
def builders (opcode : Bytes) : Option (List Bytes → Option (Built Command)) :=
  if opcode = ascii "set" ∨ opcode = ascii "add" ∨ opcode = ascii "replace"
      ∨ opcode = ascii "append" ∨ opcode = ascii "prepend" ∨ opcode = ascii "cas" then
    some (fun tokens => some ((storageBuilder tokens).toCommand Command.storage))
  else if opcode = ascii "get" ∨ opcode = ascii "gets" then
    some (fun tokens => (retrievalBuilder tokens).map (Built.toCommand Command.retrieval))
  else if opcode = ascii "incr" ∨ opcode = ascii "decr" then
    some (fun tokens => some ((incDecBuilder tokens).toCommand Command.incDec))
  else if opcode = ascii "delete" then
    some (fun tokens => some ((deleteBuilder tokens).toCommand Command.delete))
  else if opcode = ascii "touch" then
    some (fun tokens => some ((touchBuilder tokens).toCommand Command.touch))
  else none

/-- Method `Execute` of the interface `Command`. -/
def Command.Execute (c : Command) (s : simpleCache) (now : Int) : Option (simpleCache × Bytes) :=
  match c with
  | .retrieval c => some (s, c.Execute s now)
  | .storage c => c.Execute s now
  | .delete c => some (c.Execute s)
  | .incDec c => some (c.Execute s now)
  | .touch c => some (c.Execute s now)

/-- Library function `bytes.Split(line, []byte(" "))`: the pieces of `line` between single
spaces; there is always at least one piece. -/
def bytesSplit : Bytes → List Bytes
  | [] => [[]]
  | b :: rest =>
    if b = 32 then [] :: bytesSplit rest
    else
      match bytesSplit rest with
      | [] => [[b]]
      | t :: ts => (b :: t) :: ts

/-- What the data-block read of one iteration meets: the bytes the reader can hand to the
call `rd.Read(data)` (it copies at most `len(data)` of them), whether the call returns an
error, and `heap`, the size in bytes of the largest buffer the allocator can supply when
`make([]byte, sc.dataSize+2)` runs. -/
structure ReadResult where
  avail : Bytes
  err : Bool
  heap : Nat
  deriving DecidableEq, Repr

/-- Constant `maxAlloc` of package `runtime` on linux/amd64, `1 << 48`: `runtime.makeslice`
fails with `len out of range` for a byte slice longer than this. -/
def maxAlloc : Int := 281474976710656

/-- The data-block part of `handleConn` for a storage command with the given `dataSize`:
`none` is a run-time failure (`make` with a negative length or one above `maxAlloc`, the heap
out of memory, slice bound out of range), `some none` is the reply `ERROR` followed by
`continue`, `some (some d)` is the value `d` assigned to `sc.data`. -/
def readData (dataSize : Int) (rd : ReadResult) : Option (Option Bytes) :=
  let len := wrapInt (dataSize + 2)
  if len < 0 ∨ len > maxAlloc ∨ len > (rd.heap : Int) then none
  else
    let data : Bytes := goCopy (List.replicate len.toNat 0) rd.avail
    let n : Int := (min rd.avail.length len.toNat : Nat)
    if rd.err then some none
    else if n < wrapInt (dataSize + 2) then some none
    else if len < 2 then none
    else if data.drop (len.toNat - 2) ≠ ascii "\r\n" then some none
    else some (some (data.take (len.toNat - 2)))

/-- One iteration of the `for` loop of `handleConn` after `rd.ReadLine()` returned `line`
without error: the cache afterwards and the bytes written to the connection; `none` is a
run-time failure. `rd` is what the data-block read meets if the iteration makes it. -/
def handleLine (s : simpleCache) (now : Int) (line : Bytes) (rd : ReadResult) :
    Option (simpleCache × Bytes) :=
  let split := bytesSplit line
  if split.length < 2 then some (s, ascii "ERROR\r\n")
  else
    match builders (split.headD []) with
    | none => some (s, ascii "ERROR\r\n")
    | some builder =>
      match builder split with
      | none => none
      | some (.err _) => some (s, ascii "ERROR\r\n")
      | some (.ok (.storage sc)) =>
        match readData sc.dataSize rd with
        | none => none
        | some none => some (s, ascii "ERROR\r\n")
        | some (some data) => (Command.storage { sc with data := data }).Execute s now
      | some (.ok command) => command.Execute s now

/-- One iteration of the loop of `handleConn`: the instant at which it runs, the line that
`rd.ReadLine()` returned and what the data-block read meets. -/
structure Iteration where
  now : Int
  line : Bytes
  rd : ReadResult
  deriving DecidableEq, Repr

/-- Function `handleConn` over the successive iterations of its loop, up to the iteration in
which `rd.ReadLine()` returns an error and the loop is left. -/
def handleConn : simpleCache → List Iteration → Option (simpleCache × Bytes)
  | s, [] => some (s, [])
  | s, it :: rest =>
    match handleLine s it.now it.line it.rd with
    | none => none
    | some (s1, out) =>
      match handleConn s1 rest with
      | none => none
      | some (s2, out2) => some (s2, out ++ out2)

/-! ## Package `tokenizer` (`tokenizer/tokenizer.go`)

`pos` is a Go `int`; it is never negative in a tokenizer made by `New` (a call that would make
it negative fails at run time first), so it is a `Nat` here. A Go slice has fewer than `2^63`
bytes, so the increments of `pos` and of the loop indices in `Next` do not overflow. -/

namespace tokenizer

/-- Source type `byteArrayTokenizer`. -/
structure byteArrayTokenizer where
  pos : Nat
  base : Bytes
  deriving DecidableEq, Repr

/-- Function `New`. -/
def New (base : Bytes) : byteArrayTokenizer := ⟨0, base⟩

/-- The first loop of `Next`, `for k := t.pos; k < len(t.base) && t.base[k] == ' '; k++`, run
on `rest = t.base[k:]`: the value of `t.pos` after it. -/
def skipSpaces : Bytes → Nat → Nat
  | [], k => k
  | b :: rest, k => if b = 32 then skipSpaces rest (k + 1) else k

/-- The loop `for i, v := range t.base[t.pos:]` of `findNextSpace`, run on the rest of the
slice with `k = t.pos + i`: the index returned inside the loop, `none` when the loop ends. -/
def findLoop : Bytes → Nat → Option Nat
  | [], _ => none
  | v :: rest, k => if v = 32 then some k else findLoop rest (k + 1)

/-- Method `findNextSpace`. -/
def byteArrayTokenizer.findNextSpace (t : byteArrayTokenizer) : Nat :=
  (findLoop (t.base.drop t.pos) t.pos).getD t.base.length

/-- Method `Next`: the string returned and the tokenizer afterwards (the deferred function
has run). -/
def byteArrayTokenizer.Next (t : byteArrayTokenizer) : Bytes × byteArrayTokenizer :=
  let t1 : byteArrayTokenizer := { t with pos := skipSpaces (t.base.drop t.pos) t.pos }
  if t1.pos ≥ t1.base.length then ([], t1)
  else
    let i := t1.findNextSpace
    ((t1.base.drop t1.pos).take (i - t1.pos), { t1 with pos := i + 1 })

/-- Method `FixedNext`: the string returned and the tokenizer afterwards; `none` when the
slice expression `t.base[t.pos : t.pos+n]` fails at run time. Its upper bound is below
`len(t.base)` when `n` is kept and equal to it when `n` is clamped, so the capacity of the
slice plays no part. -/
def byteArrayTokenizer.FixedNext (t : byteArrayTokenizer) (n : Int) :
    Option (Bytes × byteArrayTokenizer) :=
  let len : Int := t.base.length
  let n1 : Int :=
    if wrapInt (t.pos + n) ≥ len then wrapInt (n - wrapInt (wrapInt (t.pos + n) - len)) else n
  let hi : Int := wrapInt (t.pos + n1)
  if (t.pos : Int) ≤ hi ∧ hi ≤ len then
    some ((t.base.drop t.pos).take (hi.toNat - t.pos), { t with pos := hi.toNat })
  else none

/-- The strings returned by `k` successive calls of `Next`. -/
def nextN : Nat → byteArrayTokenizer → List Bytes
  | 0, _ => []
  | k + 1, t => t.Next.1 :: nextN k t.Next.2

/-- The strings returned by successive calls of `FixedNext` with the given sizes; `none` when
one of the calls fails at run time. -/
def fixedNextAll : List Int → byteArrayTokenizer → Option (List Bytes)
  | [], _ => some []
  | n :: ns, t =>
    match t.FixedNext n with
    | none => none
    | some (r, t1) => (fixedNextAll ns t1).map (fun rs => r :: rs)

/-- The maximal runs of non-space bytes of a byte string, in order of appearance: a scan that
closes the current run `cur` at each space and at the end. -/
def runsFrom : Bytes → Bytes → List Bytes
  | [], cur => if cur = [] then [] else [cur]
  | b :: rest, cur =>
    if b = 32 then (if cur = [] then runsFrom rest [] else cur :: runsFrom rest [])
    else runsFrom rest (cur ++ [b])

/-- The maximal runs of non-space bytes of `base`. -/
def runs (base : Bytes) : List Bytes := runsFrom base []

/-- The chunks `base[p : min(p + n, len(base))]` for the successive sizes `n`, where `p`
starts at the given value and advances by the length of each chunk. -/
def chunks (base : Bytes) : Nat → List Int → List Bytes
  | _, [] => []
  | p, n :: ns =>
    ((base.drop p).take n.toNat) :: chunks base (p + ((base.drop p).take n.toNat).length) ns

/-- One call on the interface `Tokenizer`. -/
inductive Call where
  | next
  | fixedNext (n : Int)
  deriving DecidableEq, Repr

/-- An interleaved sequence of `Next` and `FixedNext` calls on a tokenizer: the strings
returned and the tokenizer afterwards; `none` when one of the calls fails at run time. -/
def runCalls : List Call → byteArrayTokenizer → Option (List Bytes × byteArrayTokenizer)
  | [], t => some ([], t)
  | Call.next :: cs, t => (runCalls cs t.Next.2).map (fun r => (t.Next.1 :: r.1, r.2))
  | Call.fixedNext n :: cs, t =>
    match t.FixedNext n with
    | none => none
    | some (str, t1) => (runCalls cs t1).map (fun r => (str :: r.1, r.2))

end tokenizer

/-! ## Package `main` of `server/parser.go` -/

namespace server

/-- Source type `CommandOpcode`, an `int`. -/
abbrev CommandOpcode := Int

/-- Constant `INVALID` (`iota` = 0). -/
def INVALID : CommandOpcode := 0

/-- Constant `SET` (`iota` = 1). -/
def SET : CommandOpcode := 1

/-- Constant `GET` (`iota` = 2). -/
def GET : CommandOpcode := 2

/-- Source type `Command` of the parser; a `nil` key is `none`. -/
structure Command where
  Opcode : CommandOpcode
  Key : Option Bytes
  deriving DecidableEq, Repr

/-- Source table `mappings`. -/
def mappings : List (Bytes × CommandOpcode) := [(ascii "set", SET), (ascii "get", GET)]

/-- The `range mappings` loop of `Parse` over the remaining mappings, followed by the final
`return`. -/
def parseLoop : List (Bytes × CommandOpcode) → Bytes → Command
  | [], _ => ⟨INVALID, none⟩
  | mapping :: rest, line => if line = mapping.1 then ⟨mapping.2, none⟩ else parseLoop rest line

/-- Function `Parse`. -/
def Parse (line : Bytes) : Command := parseLoop mappings line

end server

/-! ## Derived notions used in the statements -/

/-- The local variable `deadline` of `simpleCache.Get`, for an entry of the map. -/
def cacheEntry.deadline (entry : cacheEntry) : Int :=
  if entry.expTime ≤ maxOffset then entry.creation + wrapInt (entry.expTime * second)
  else timeUnix entry.expTime

/-- Every entry of the map sits under its own key. `simpleCache.Set` is the only writer of
the map and stores under `entry.key`, so this holds in every state the program reaches. -/
def simpleCache.keyed (s : simpleCache) : Prop :=
  ∀ k e, s.entries k = some e → e.key = k

/-- The reply block of one entry as the protocol words it:
`VALUE <key> <flags> <bytes>\r\n<data>\r\n`, and for `gets`
`VALUE <key> <flags> <bytes> <cas>\r\n<data>\r\n`. -/
def valueBlock (withCas : Bool) (e : cacheEntry) : Bytes :=
  ascii "VALUE " ++ e.key ++ ascii " " ++ formatInt e.flags ++ ascii " " ++ formatInt e.dataSize
    ++ (if withCas then ascii " " ++ formatInt e.casUnique else []) ++ ascii "\r\n"
    ++ e.data ++ ascii "\r\n"

/-- The reply to `get` / `gets` as the protocol words it: one block for each requested key
that is present and unexpired, in request order, nothing for the other keys, then one
`END\r\n`. -/
def retrievalReply (withCas : Bool) (s : simpleCache) (now : Int) (keys : List Bytes) : Bytes :=
  ((keys.filterMap (s.Get now)).map (valueBlock withCas)).flatten ++ ascii "END\r\n"

/-- The value of the local variable `v` of `incDecCommand.Execute` after its `if` chain, from
the value `v` that `strconv.Atoi` returned for the entry's data. -/
def incDecCommand.newValue (c : incDecCommand) (v : Int) : Int :=
  if c.opcode = ascii "incr" then wrapInt (v + c.value)
  else if wrapInt (v - c.value) ≥ 0 then wrapInt (v - c.value)
  else 0

/-- The token at position `i` of a command line, when there is one, is a numeral that
`strconv.Atoi` reads: the numeric token is well formed. -/
def readable (tokens : List Bytes) (i : Nat) : Prop :=
  ∀ t, tokens[i]? = some t → Atoi t ≠ none

/-- An ASCII decimal digit. -/
def isDigit (b : UInt8) : Prop := 48 ≤ b.toNat ∧ b.toNat ≤ 57

/-! ## Basic facts -/

theorem wrapInt_of_range (x : Int) (h1 : -9223372036854775808 ≤ x) (h2 : x ≤ 9223372036854775807) :
    wrapInt x = x := by
  unfold wrapInt
  omega

theorem entries_Set_same (s : simpleCache) (e : cacheEntry) :
    (s.Set e).entries e.key = some e := by
  simp [simpleCache.Set]

theorem entries_Set_other (s : simpleCache) (e : cacheEntry) (k : Bytes) (h : k ≠ e.key) :
    (s.Set e).entries k = s.entries k := by
  simp [simpleCache.Set, h]

/-- What `Get` answers for a key whose map entry is known. -/
theorem Get_of_entries (s : simpleCache) (now : Int) (k : Bytes) (e : cacheEntry)
    (h : s.entries k = some e) :
    s.Get now k =
      if now > (if e.expTime ≤ maxOffset then e.creation + wrapInt (e.expTime * second)
                else timeUnix e.expTime) then none else some e := by
  simp [simpleCache.Get, h]

/-- Below `2^63 - unixToInternal` seconds `time.Unix` is the instant that many seconds after
the UNIX epoch. -/
theorem timeUnix_of_range (sec : Int) (h1 : -9223372098990372608 ≤ sec)
    (h2 : sec < 9223371974719179008) : timeUnix sec = sec * second := by
  have hw : wrapInt (sec + unixToInternal) = sec + unixToInternal := by
    apply wrapInt_of_range <;> simp only [unixToInternal] <;> omega
  rw [timeUnix, hw, add_sub_cancel_right]

theorem Get_of_entries_none (s : simpleCache) (now : Int) (k : Bytes)
    (h : s.entries k = none) : s.Get now k = none := by
  simp [simpleCache.Get, h]

/-- An entry with a relative expiration time is visible up to its deadline. -/
theorem Get_relative_visible (s : simpleCache) (now : Int) (k : Bytes) (e : cacheEntry)
    (h : s.entries k = some e) (h1 : 1 ≤ e.expTime) (h2 : e.expTime ≤ 2592000)
    (hnow : now ≤ e.creation + e.expTime * second) : s.Get now k = some e := by
  rw [Get_of_entries s now k e h]
  have hw : wrapInt (e.expTime * second) = e.expTime * second := by
    apply wrapInt_of_range <;> simp only [second] <;> omega
  have hm : e.expTime ≤ maxOffset := by simp only [maxOffset]; omega
  rw [if_pos hm, hw, if_neg (by omega)]

/-! ## Round trip and expiration -/

/-- C1: for every key `K`, flags `F`, relative expiration time `1 ≤ E ≤ 2592000` and byte
string `D` (any bytes), `set K F E |D|` with data `D` executed at time `t` writes
`STORED\r\n`, and `get K` executed at any time `t'` with `t ≤ t' ≤ t + E` seconds then writes
exactly `VALUE K F |D|\r\n`, the bytes of `D`, `\r\n` and `END\r\n` (the bound `t ≤ t'` is not
needed for it). -/
theorem set_get_roundtrip (s : simpleCache) (K : Bytes) (F E cu : Int) (D : Bytes) (t t' : Int)
    (hE1 : 1 ≤ E) (hE2 : E ≤ 2592000) (ht' : t' ≤ t + E * second) :
    ∃ s1, storageCommand.Execute ⟨ascii "set", K, F, E, D.length, cu, false, D⟩ s t
            = some (s1, ascii "STORED\r\n") ∧
          retrievalCommand.Execute ⟨ascii "get", [K]⟩ s1 t'
            = ascii "VALUE " ++ K ++ ascii " " ++ formatInt F ++ ascii " "
                ++ formatInt D.length ++ ascii "\r\n" ++ D ++ ascii "\r\n" ++ ascii "END\r\n" := by
  refine ⟨s.Set ⟨t, F, E, D.length, 1, K, D⟩, ?_, ?_⟩
  · simp [storageCommand.Execute, storageCommand.entry, reply]
  · have hg : (s.Set ⟨t, F, E, D.length, 1, K, D⟩).Get t' K = some ⟨t, F, E, D.length, 1, K, D⟩ :=
      Get_relative_visible _ t' K _ (entries_Set_same s ⟨t, F, E, D.length, 1, K, D⟩) hE1 hE2 ht'
    simp [retrievalCommand.Execute, retrievalCommand.loop, retrievalCommand.writeKey, hg]

/-- C1 at a concrete input: data holding `\r`, `\n` and `\0`, stored at 5 ns and read a
second later. -/
theorem set_get_roundtrip_witness :
    ((1 : Int) ≤ 10 ∧ (10 : Int) ≤ 2592000 ∧ (1000000005 : Int) ≤ 5 + 10 * second) ∧
    ∃ s1, storageCommand.Execute ⟨ascii "set", ascii "foo", 7, 10, ([104, 13, 10, 0] : Bytes).length,
              0, false, [104, 13, 10, 0]⟩ simpleCache.empty 5
            = some (s1, ascii "STORED\r\n") ∧
          retrievalCommand.Execute ⟨ascii "get", [ascii "foo"]⟩ s1 1000000005
            = ascii "VALUE " ++ ascii "foo" ++ ascii " " ++ formatInt 7 ++ ascii " "
                ++ formatInt ([104, 13, 10, 0] : Bytes).length ++ ascii "\r\n" ++ [104, 13, 10, 0]
                ++ ascii "\r\n" ++ ascii "END\r\n" :=
  ⟨by decide, set_get_roundtrip simpleCache.empty (ascii "foo") 7 10 0 [104, 13, 10, 0] 5 1000000005
    (by decide) (by decide) (by decide)⟩

/-- An entry stored with expiration time 0 is treated as a relative time of zero seconds: it
is visible only up to the instant of its creation. -/
theorem Get_expTime_zero (s : simpleCache) (now : Int) (k : Bytes) (e : cacheEntry)
    (h : s.entries k = some e) (h0 : e.expTime = 0) :
    s.Get now k = if now > e.creation then none else some e := by
  rw [Get_of_entries s now k e h, h0]
  simp [maxOffset, wrapInt]

/-- C2 (the code at the failing input): `set foo 0 0 5` with data `hello` at time 0 is answered
by `STORED\r\n`, and `get foo` one nanosecond later writes only `END\r\n`. -/
theorem exptime_zero_set_then_get :
    ∃ s1, storageCommand.Execute ⟨ascii "set", ascii "foo", 0, 0, 5, 0, false, ascii "hello"⟩
              simpleCache.empty 0 = some (s1, ascii "STORED\r\n") ∧
          retrievalCommand.Execute ⟨ascii "get", [ascii "foo"]⟩ s1 1 = ascii "END\r\n" :=
  ⟨simpleCache.empty.Set ⟨0, 0, 0, 5, 1, ascii "foo", ascii "hello"⟩, rfl, by decide⟩

/-- The general statement of C3, for the expiration times below `2^63 - 62135596800`: an entry
created at time `c` with `1 ≤ exp_time ≤ 2592000` has the deadline `c + exp_time` seconds, one
with `2592000 < exp_time < 9223371974719179008` has the deadline of the UNIX instant
`exp_time` seconds; `Get` at `now` returns the entry when `now` is not after the deadline and
nothing when it is. So `set a 0 1 1` with data `x`, then `get a` more than a second later,
writes only `END\r\n`. -/
theorem expiration_deadline (s : simpleCache) (k : Bytes) (e : cacheEntry) (now : Int)
    (h : s.entries k = some e) :
    (1 ≤ e.expTime → e.expTime ≤ 2592000 →
      (now ≤ e.creation + e.expTime * second → s.Get now k = some e) ∧
      (now > e.creation + e.expTime * second → s.Get now k = none)) ∧
    (e.expTime > 2592000 → e.expTime < 9223371974719179008 →
      (now ≤ e.expTime * second → s.Get now k = some e) ∧
      (now > e.expTime * second → s.Get now k = none)) ∧
    (∀ (s0 : simpleCache) (t t' : Int), t' > t + 1 * second →
      ∃ s1, storageCommand.Execute ⟨ascii "set", ascii "a", 0, 1, 1, 0, false, ascii "x"⟩ s0 t
              = some (s1, ascii "STORED\r\n") ∧
            retrievalCommand.Execute ⟨ascii "get", [ascii "a"]⟩ s1 t' = ascii "END\r\n") := by
  refine ⟨?_, ?_, ?_⟩
  · intro h1 h2
    have hw : wrapInt (e.expTime * second) = e.expTime * second := by
      apply wrapInt_of_range <;> simp only [second] <;> omega
    have hm : e.expTime ≤ maxOffset := by simp only [maxOffset]; omega
    rw [Get_of_entries s now k e h, if_pos hm, hw]
    constructor
    · intro hn; rw [if_neg (by omega)]
    · intro hn; rw [if_pos hn]
  · intro h1 h2
    have hm : ¬ e.expTime ≤ maxOffset := by simp only [maxOffset]; omega
    rw [Get_of_entries s now k e h, if_neg hm, timeUnix_of_range e.expTime (by omega) h2]
    constructor
    · intro hn; rw [if_neg (by omega)]
    · intro hn; rw [if_pos hn]
  · intro s0 t t' ht
    refine ⟨s0.Set ⟨t, 0, 1, 1, 1, ascii "a", ascii "x"⟩, ?_, ?_⟩
    · simp [storageCommand.Execute, storageCommand.entry, reply]
    · have hg : (s0.Set ⟨t, 0, 1, 1, 1, ascii "a", ascii "x"⟩).Get t' (ascii "a") = none := by
        rw [Get_of_entries _ t' _ _ (entries_Set_same s0 ⟨t, 0, 1, 1, 1, ascii "a", ascii "x"⟩)]
        have hw : wrapInt (1 * second) = 1 * second := by decide
        have hm : (1 : Int) ≤ maxOffset := by decide
        simp only [if_pos hm, hw]
        rw [if_pos ht]
      simp [retrievalCommand.Execute, retrievalCommand.loop, retrievalCommand.writeKey, hg]

/-- The deadline rule at a concrete entry: created at 5 ns with a relative expiration time of
10 s, read at its deadline. -/
theorem expiration_deadline_witness :
    (simpleCache.empty.Set ⟨5, 0, 10, 1, 1, ascii "a", ascii "x"⟩).entries (ascii "a")
        = some ⟨5, 0, 10, 1, 1, ascii "a", ascii "x"⟩ ∧
    (simpleCache.empty.Set ⟨5, 0, 10, 1, 1, ascii "a", ascii "x"⟩).Get 10000000005 (ascii "a")
        = some ⟨5, 0, 10, 1, 1, ascii "a", ascii "x"⟩ :=
  ⟨by decide,
   ((expiration_deadline (simpleCache.empty.Set ⟨5, 0, 10, 1, 1, ascii "a", ascii "x"⟩)
      (ascii "a") ⟨5, 0, 10, 1, 1, ascii "a", ascii "x"⟩ 10000000005 (by decide)).1
      (by decide) (by decide)).1 (by decide)⟩

/-- C3 (the code at the failing input): the builder accepts the line
`set a 0 9223371974719179008 1`. In `time.Unix(9223371974719179008, 0)` the second count
`9223371974719179008 + 62135596800` wraps around to `-9223372036854775808`, so the deadline
lies before the UNIX epoch although the instant 0 is not after the UNIX instant of
9223371974719179008 seconds: `Get` at time 0 and at 1700000000 s finds the entry expired, and
after the `set` at time 0, answered by `STORED\r\n`, `get a` at the same instant writes only
`END\r\n`. -/
theorem absolute_exptime_wraps :
    storageBuilder [ascii "set", ascii "a", ascii "0", ascii "9223371974719179008", ascii "1"]
      = .ok ⟨ascii "set", ascii "a", 0, 9223371974719179008, 1, 0, false, []⟩ ∧
    (9223371974719179008 : Int) > 2592000 ∧
    wrapInt (9223371974719179008 + unixToInternal) = -9223372036854775808 ∧
    timeUnix 9223371974719179008 = -9223372098990372608 * second ∧
    (0 : Int) ≤ 9223371974719179008 * second ∧
    (simpleCache.empty.Set ⟨0, 0, 9223371974719179008, 1, 1, ascii "a", ascii "x"⟩).Get 0
      (ascii "a") = none ∧
    (simpleCache.empty.Set ⟨0, 0, 9223371974719179008, 1, 1, ascii "a", ascii "x"⟩).Get
      (1700000000 * second) (ascii "a") = none ∧
    (handleConn simpleCache.empty
      [⟨0, ascii "set a 0 9223371974719179008 1", ⟨ascii "x\r\n", false, 65536⟩⟩,
       ⟨0, ascii "get a", ⟨[], false, 65536⟩⟩]).map Prod.snd
      = some (ascii "STORED\r\nEND\r\n") :=
  ⟨by decide, by decide, by decide, by decide, by decide, by decide, by decide, by decide⟩

/-! ## Storage commands, opcode by opcode -/

theorem Execute_set (c : storageCommand) (s : simpleCache) (now : Int)
    (hop : c.opcode = ascii "set") :
    c.Execute s now = some (s.Set (c.entry now 1), reply c.noReply (ascii "STORED\r\n")) := by
  simp [storageCommand.Execute, storageCommand.entry, hop]

theorem Execute_add (c : storageCommand) (s : simpleCache) (now : Int)
    (hop : c.opcode = ascii "add") :
    c.Execute s now =
      match s.Get now c.key with
      | none => some (s.Set (c.entry now 1), reply c.noReply (ascii "STORED\r\n"))
      | some _ => some (s, reply c.noReply (ascii "NOT_STORED\r\n")) := by
  have h1 : ascii "add" ≠ ascii "set" := by decide
  cases hg : s.Get now c.key <;>
    simp [storageCommand.Execute, storageCommand.entry, hop, h1, hg]

theorem Execute_replace (c : storageCommand) (s : simpleCache) (now : Int)
    (hop : c.opcode = ascii "replace") :
    c.Execute s now =
      match s.Get now c.key with
      | none => some (s, reply c.noReply (ascii "NOT_STORED\r\n"))
      | some oldEntry =>
        some (s.Set (c.entry now (wrapInt (oldEntry.casUnique + 1))),
          reply c.noReply (ascii "STORED\r\n")) := by
  have h1 : ascii "replace" ≠ ascii "set" := by decide
  have h2 : ascii "replace" ≠ ascii "add" := by decide
  cases hg : s.Get now c.key <;>
    simp [storageCommand.Execute, storageCommand.entry, hop, h1, h2, hg]

theorem Execute_cas (c : storageCommand) (s : simpleCache) (now : Int)
    (hop : c.opcode = ascii "cas") :
    c.Execute s now =
      match s.Get now c.key with
      | none => some (s, reply c.noReply (ascii "NOT_FOUND\r\n"))
      | some oldEntry =>
        if oldEntry.casUnique ≠ c.casUnique then some (s, reply c.noReply (ascii "EXISTS\r\n"))
        else some (s.Set (c.entry now (wrapInt (oldEntry.casUnique + 1))),
          reply c.noReply (ascii "STORED\r\n")) := by
  have h1 : ascii "cas" ≠ ascii "set" := by decide
  have h2 : ascii "cas" ≠ ascii "add" := by decide
  have h3 : ascii "cas" ≠ ascii "replace" := by decide
  cases hg : s.Get now c.key <;>
    simp [storageCommand.Execute, storageCommand.entry, hop, h1, h2, h3, hg]

/-- The branch taken by `append`, `prepend` and every opcode other than `set`, `add`,
`replace` and `cas`. -/
theorem Execute_concat (c : storageCommand) (s : simpleCache) (now : Int)
    (h1 : c.opcode ≠ ascii "set") (h2 : c.opcode ≠ ascii "add")
    (h3 : c.opcode ≠ ascii "replace") (h4 : c.opcode ≠ ascii "cas") :
    c.Execute s now =
      match s.Get now c.key with
      | none => some (s.Set (c.entry now 1), reply c.noReply (ascii "STORED\r\n"))
      | some oldEntry =>
        match storageCommand.concat c.opcode oldEntry (c.entry now 0) with
        | none => none
        | some ndata =>
          some (s.Set { c.entry now (wrapInt (oldEntry.casUnique + 1)) with
                          dataSize := ndata.length, data := ndata },
            reply c.noReply (ascii "STORED\r\n")) := by
  cases hg : s.Get now c.key <;>
    simp [storageCommand.Execute, storageCommand.entry, h1, h2, h3, h4, hg]

theorem STORED_ne_EXISTS : ascii "STORED\r\n" ≠ ascii "EXISTS\r\n" := by decide

theorem STORED_ne_NOT_FOUND : ascii "STORED\r\n" ≠ ascii "NOT_FOUND\r\n" := by decide

theorem EXISTS_ne_NOT_FOUND : ascii "EXISTS\r\n" ≠ ascii "NOT_FOUND\r\n" := by decide

theorem STORED_ne_NOT_STORED : ascii "STORED\r\n" ≠ ascii "NOT_STORED\r\n" := by decide

/-! ## The CAS token -/

/-- C4 (the code at the failing input): `set n 0 100 1` with data `9` on the empty cache gives
the entry `cas_unique` 1; the same `set` executed again, overwriting the visible entry, gives
it `cas_unique` 1 again, not 2; and a following `incr n 3`, which answers `12\r\n`, leaves
`cas_unique` at 1. -/
theorem cas_unique_not_advanced :
    ∃ s1 s2,
      storageCommand.Execute ⟨ascii "set", ascii "n", 0, 100, 1, 0, false, ascii "9"⟩
        simpleCache.empty 0 = some (s1, ascii "STORED\r\n") ∧
      (s1.Get 0 (ascii "n")).map cacheEntry.casUnique = some 1 ∧
      storageCommand.Execute ⟨ascii "set", ascii "n", 0, 100, 1, 0, false, ascii "9"⟩ s1 0
        = some (s2, ascii "STORED\r\n") ∧
      (s2.Get 0 (ascii "n")).map cacheEntry.casUnique = some 1 ∧
      (incDecCommand.Execute ⟨ascii "incr", ascii "n", 3, false⟩ s2 0).2 = ascii "12\r\n" ∧
      ((incDecCommand.Execute ⟨ascii "incr", ascii "n", 3, false⟩ s2 0).1.Get 0 (ascii "n")).map
        cacheEntry.casUnique = some 1 :=
  ⟨simpleCache.empty.Set ⟨0, 0, 100, 1, 1, ascii "n", ascii "9"⟩,
   (simpleCache.empty.Set ⟨0, 0, 100, 1, 1, ascii "n", ascii "9"⟩).Set
      ⟨0, 0, 100, 1, 1, ascii "n", ascii "9"⟩,
   rfl, by decide, rfl, by decide, by decide, by decide⟩

/-- C5: a `cas` command on key `K` with expected token `X` (and without `noreply`) always
returns, with exactly three outcomes: it writes `STORED\r\n` iff `K` is present, unexpired and
its `cas_unique` equals `X`, and then the entry is replaced by the command's entry with
`cas_unique` = old + 1 in Go `int` arithmetic (old + 1 whenever the old token is an `int` below
the largest one); it writes `EXISTS\r\n` iff `K` is present, unexpired and its `cas_unique`
differs from `X`; it writes `NOT_FOUND\r\n` iff `K` is absent or expired; in the last two
cases the cache is unchanged. Hence after a `set` that gave token 1, `cas ... 1` is `STORED`
and a second `cas ... 1` is `EXISTS` (the key being visible at both times). -/
theorem cas_three_outcomes (c : storageCommand) (s : simpleCache) (now : Int)
    (hop : c.opcode = ascii "cas") (hnr : c.noReply = false) :
    (∃ s1 out, c.Execute s now = some (s1, out) ∧
      (out = ascii "STORED\r\n" ↔
        ∃ old, s.Get now c.key = some old ∧ old.casUnique = c.casUnique) ∧
      (out = ascii "EXISTS\r\n" ↔
        ∃ old, s.Get now c.key = some old ∧ old.casUnique ≠ c.casUnique) ∧
      (out = ascii "NOT_FOUND\r\n" ↔ s.Get now c.key = none) ∧
      (∀ old, s.Get now c.key = some old → old.casUnique = c.casUnique →
        s1 = s.Set (c.entry now (wrapInt (old.casUnique + 1))) ∧
        (-9223372036854775808 ≤ old.casUnique → old.casUnique < maxInt →
          wrapInt (old.casUnique + 1) = old.casUnique + 1)) ∧
      (out ≠ ascii "STORED\r\n" → s1 = s)) ∧
    (∀ (s0 : simpleCache) (K : Bytes) (F E n F1 E1 n1 F2 E2 n2 : Int) (D D1 D2 : Bytes)
        (t0 t1 t2 : Int),
      1 ≤ E → E ≤ 2592000 → t1 ≤ t0 + E * second →
      1 ≤ E1 → E1 ≤ 2592000 → t2 ≤ t1 + E1 * second →
      ∃ s1 s2,
        storageCommand.Execute ⟨ascii "set", K, F, E, n, 0, false, D⟩ s0 t0
          = some (s1, ascii "STORED\r\n") ∧
        (s1.entries K).map cacheEntry.casUnique = some 1 ∧
        storageCommand.Execute ⟨ascii "cas", K, F1, E1, n1, 1, false, D1⟩ s1 t1
          = some (s2, ascii "STORED\r\n") ∧
        storageCommand.Execute ⟨ascii "cas", K, F2, E2, n2, 1, false, D2⟩ s2 t2
          = some (s2, ascii "EXISTS\r\n")) := by
  constructor
  · rw [Execute_cas c s now hop]
    cases hg : s.Get now c.key with
    | none =>
      refine ⟨s, ascii "NOT_FOUND\r\n", by simp [reply, hnr], ?_, ?_, ?_, ?_, ?_⟩
      · simp [Ne.symm STORED_ne_NOT_FOUND]
      · simp [Ne.symm EXISTS_ne_NOT_FOUND]
      · simp
      · intro old h; cases h
      · intro _; rfl
    | some old =>
      by_cases hc : old.casUnique = c.casUnique
      · refine ⟨s.Set (c.entry now (wrapInt (old.casUnique + 1))), ascii "STORED\r\n",
          by simp [reply, hnr, hc], ?_, ?_, ?_, ?_, ?_⟩
        · simp [hc]
        · simp [hc, STORED_ne_EXISTS]
        · simp [STORED_ne_NOT_FOUND]
        · intro old1 h _
          cases h
          refine ⟨rfl, ?_⟩
          intro h1 h2
          apply wrapInt_of_range <;> simp only [maxInt] at h2 <;> omega
        · intro h; exact absurd rfl h
      · refine ⟨s, ascii "EXISTS\r\n", by simp [reply, hnr, hc], ?_, ?_, ?_, ?_, ?_⟩
        · simp [hc, Ne.symm STORED_ne_EXISTS]
        · simp [hc]
        · simp [EXISTS_ne_NOT_FOUND]
        · intro old1 h h1
          cases h
          exact absurd h1 hc
        · intro _; rfl
  · intro s0 K F E n F1 E1 n1 F2 E2 n2 D D1 D2 t0 t1 t2 hE hE' ht1 hE1 hE1' ht2
    have hg1 : (s0.Set ⟨t0, F, E, n, 1, K, D⟩).Get t1 K = some ⟨t0, F, E, n, 1, K, D⟩ :=
      Get_relative_visible _ t1 K _ (entries_Set_same s0 ⟨t0, F, E, n, 1, K, D⟩) hE hE' ht1
    have hg2 : ((s0.Set ⟨t0, F, E, n, 1, K, D⟩).Set ⟨t1, F1, E1, n1, 2, K, D1⟩).Get t2 K
        = some ⟨t1, F1, E1, n1, 2, K, D1⟩ :=
      Get_relative_visible _ t2 K _ (entries_Set_same _ ⟨t1, F1, E1, n1, 2, K, D1⟩) hE1 hE1' ht2
    have hw : wrapInt 2 = 2 := by decide
    refine ⟨s0.Set ⟨t0, F, E, n, 1, K, D⟩,
      (s0.Set ⟨t0, F, E, n, 1, K, D⟩).Set ⟨t1, F1, E1, n1, 2, K, D1⟩, ?_, ?_, ?_, ?_⟩
    · rw [Execute_set _ _ _ rfl]; simp [storageCommand.entry, reply]
    · simp [simpleCache.Set]
    · rw [Execute_cas _ _ _ rfl]; simp [storageCommand.entry, reply, hg1, hw]
    · rw [Execute_cas _ _ _ rfl]; simp [storageCommand.entry, reply, hg2]

/-- C5 at a concrete input: key `foo` stored with token 1, `cas foo 0 100 1 1` at 5 ns. -/
theorem cas_three_outcomes_witness :
    ((⟨ascii "cas", ascii "foo", 0, 100, 1, 1, false, ascii "b"⟩ : storageCommand).opcode
        = ascii "cas" ∧
      (⟨ascii "cas", ascii "foo", 0, 100, 1, 1, false, ascii "b"⟩ : storageCommand).noReply
        = false) ∧
    ∃ s1 out,
      storageCommand.Execute ⟨ascii "cas", ascii "foo", 0, 100, 1, 1, false, ascii "b"⟩
        (simpleCache.empty.Set ⟨0, 0, 100, 1, 1, ascii "foo", ascii "a"⟩) 5 = some (s1, out) ∧
      (out = ascii "STORED\r\n" ↔
        ∃ old, (simpleCache.empty.Set ⟨0, 0, 100, 1, 1, ascii "foo", ascii "a"⟩).Get 5
            (ascii "foo") = some old ∧ old.casUnique = 1) := by
  refine ⟨⟨rfl, rfl⟩, ?_⟩
  obtain ⟨s1, out, h, h1, _⟩ :=
    (cas_three_outcomes ⟨ascii "cas", ascii "foo", 0, 100, 1, 1, false, ascii "b"⟩
      (simpleCache.empty.Set ⟨0, 0, 100, 1, 1, ascii "foo", ascii "a"⟩) 5 rfl rfl).1
  exact ⟨s1, out, h, h1⟩

/-! ## `add` and `replace` -/

/-- C6: an `add` command on key `K` (without `noreply`): if `K` is absent or expired it writes
`STORED\r\n` and installs the command's entry with `cas_unique` 1; if `K` is present and
unexpired it writes `NOT_STORED\r\n` and the cache is unchanged. -/
theorem add_only_when_not_visible (c : storageCommand) (s : simpleCache) (now : Int)
    (hop : c.opcode = ascii "add") (hnr : c.noReply = false) :
    (s.Get now c.key = none →
      c.Execute s now
        = some (s.Set ⟨now, c.flags, c.expTime, c.dataSize, 1, c.key, c.data⟩,
            ascii "STORED\r\n")) ∧
    (∀ old, s.Get now c.key = some old →
      c.Execute s now = some (s, ascii "NOT_STORED\r\n")) := by
  rw [Execute_add c s now hop]
  constructor
  · intro hg
    simp [hg, reply, hnr, storageCommand.entry]
  · intro old hg
    simp [hg, reply, hnr]

/-- C6 at a concrete input: `add foo 0 0 3` with data `xyz` on the empty cache. -/
theorem add_only_when_not_visible_witness :
    ((⟨ascii "add", ascii "foo", 0, 0, 3, 0, false, ascii "xyz"⟩ : storageCommand).opcode
        = ascii "add" ∧
      (⟨ascii "add", ascii "foo", 0, 0, 3, 0, false, ascii "xyz"⟩ : storageCommand).noReply
        = false ∧
      simpleCache.empty.Get 7 (ascii "foo") = none) ∧
    storageCommand.Execute ⟨ascii "add", ascii "foo", 0, 0, 3, 0, false, ascii "xyz"⟩
        simpleCache.empty 7
      = some (simpleCache.empty.Set ⟨7, 0, 0, 3, 1, ascii "foo", ascii "xyz"⟩,
          ascii "STORED\r\n") :=
  ⟨⟨rfl, rfl, rfl⟩,
   (add_only_when_not_visible ⟨ascii "add", ascii "foo", 0, 0, 3, 0, false, ascii "xyz"⟩
      simpleCache.empty 7 rfl rfl).1 rfl⟩

/-- C7: a `replace` command on key `K` (without `noreply`) always returns; it writes
`STORED\r\n` iff `K` is present and unexpired, and then the entry is replaced wholesale by the
command's flags, exp_time and data with `cas_unique` = old + 1 in Go `int` arithmetic (old + 1
whenever the old token is an `int` below the largest one); otherwise it writes
`NOT_STORED\r\n` and the cache is unchanged. -/
theorem replace_only_when_visible (c : storageCommand) (s : simpleCache) (now : Int)
    (hop : c.opcode = ascii "replace") (hnr : c.noReply = false) :
    ∃ s1 out, c.Execute s now = some (s1, out) ∧
      (out = ascii "STORED\r\n" ↔ ∃ old, s.Get now c.key = some old) ∧
      (∀ old, s.Get now c.key = some old →
        s1 = s.Set ⟨now, c.flags, c.expTime, c.dataSize, wrapInt (old.casUnique + 1),
                    c.key, c.data⟩ ∧
        (-9223372036854775808 ≤ old.casUnique → old.casUnique < maxInt →
          wrapInt (old.casUnique + 1) = old.casUnique + 1)) ∧
      (s.Get now c.key = none → out = ascii "NOT_STORED\r\n" ∧ s1 = s) := by
  rw [Execute_replace c s now hop]
  cases hg : s.Get now c.key with
  | none =>
    refine ⟨s, ascii "NOT_STORED\r\n", by simp [reply, hnr], ?_, ?_, ?_⟩
    · simp [Ne.symm STORED_ne_NOT_STORED]
    · intro old h; cases h
    · intro _; exact ⟨rfl, rfl⟩
  | some old =>
    refine ⟨s.Set (c.entry now (wrapInt (old.casUnique + 1))), ascii "STORED\r\n",
      by simp [reply, hnr], ?_, ?_, ?_⟩
    · simp
    · intro old1 h
      cases h
      refine ⟨rfl, ?_⟩
      intro h1 h2
      apply wrapInt_of_range <;> simp only [maxInt] at h2 <;> omega
    · intro h; cases h

/-- C7 at a concrete input: key `foo` stored with token 1, `replace foo 3 100 2` at 5 ns. -/
theorem replace_only_when_visible_witness :
    ((⟨ascii "replace", ascii "foo", 3, 100, 2, 0, false, ascii "bc"⟩ : storageCommand).opcode
        = ascii "replace" ∧
      (⟨ascii "replace", ascii "foo", 3, 100, 2, 0, false, ascii "bc"⟩ : storageCommand).noReply
        = false) ∧
    ∃ s1 out,
      storageCommand.Execute ⟨ascii "replace", ascii "foo", 3, 100, 2, 0, false, ascii "bc"⟩
        (simpleCache.empty.Set ⟨0, 0, 100, 1, 1, ascii "foo", ascii "a"⟩) 5 = some (s1, out) ∧
      (out = ascii "STORED\r\n" ↔
        ∃ old, (simpleCache.empty.Set ⟨0, 0, 100, 1, 1, ascii "foo", ascii "a"⟩).Get 5
            (ascii "foo") = some old) := by
  refine ⟨⟨rfl, rfl⟩, ?_⟩
  obtain ⟨s1, out, h, h1, _⟩ :=
    replace_only_when_visible ⟨ascii "replace", ascii "foo", 3, 100, 2, 0, false, ascii "bc"⟩
      (simpleCache.empty.Set ⟨0, 0, 100, 1, 1, ascii "foo", ascii "a"⟩) 5 rfl rfl
  exact ⟨s1, out, h, h1⟩

/-! ## `append` and `prepend` -/

/-- Filling a zeroed buffer of the joint length with `a` from the start and `b` from offset
`len a` gives `a ++ b`. -/
theorem copyAt_goCopy_replicate (a b : Bytes) :
    copyAt (goCopy (List.replicate (a.length + b.length) 0) a) a.length b = a ++ b := by
  have h1 : goCopy (List.replicate (a.length + b.length) 0) a
      = a ++ List.replicate b.length 0 := by
    simp [goCopy, List.take_of_length_le]
  rw [h1]
  simp [copyAt, goCopy, List.take_of_length_le]

/-- When both entries satisfy `dataSize = len(data)` and the joint length is an `int`, the
buffer built for `append` is the old data followed by the new data. -/
theorem concat_append (opcode : Bytes) (oldEntry entry : cacheEntry)
    (hop : opcode ≠ ascii "prepend")
    (ho : oldEntry.dataSize = oldEntry.data.length) (hn : entry.dataSize = entry.data.length)
    (hlen : (oldEntry.data.length : Int) + entry.data.length ≤ maxInt) :
    storageCommand.concat opcode oldEntry entry = some (oldEntry.data ++ entry.data) := by
  have hw : wrapInt ((oldEntry.data.length : Int) + entry.data.length)
      = ((oldEntry.data.length + entry.data.length : Nat) : Int) := by
    rw [wrapInt_of_range] <;> simp only [maxInt] at hlen <;> omega
  unfold storageCommand.concat
  simp only [ho, hn, hw, if_neg hop]
  rw [if_neg (by omega), if_pos (by omega)]
  simp only [Int.toNat_ofNat]
  rw [copyAt_goCopy_replicate]

/-- When both entries satisfy `dataSize = len(data)` and the joint length is an `int`, the
buffer built for `prepend` is the new data followed by the old data. -/
theorem concat_prepend (oldEntry entry : cacheEntry)
    (ho : oldEntry.dataSize = oldEntry.data.length) (hn : entry.dataSize = entry.data.length)
    (hlen : (oldEntry.data.length : Int) + entry.data.length ≤ maxInt) :
    storageCommand.concat (ascii "prepend") oldEntry entry
      = some (entry.data ++ oldEntry.data) := by
  have hw : wrapInt ((oldEntry.data.length : Int) + entry.data.length)
      = ((entry.data.length + oldEntry.data.length : Nat) : Int) := by
    rw [wrapInt_of_range] <;> simp only [maxInt] at hlen <;> omega
  unfold storageCommand.concat
  simp only [ho, hn, hw, if_true]
  rw [if_neg (by omega), if_pos (by omega)]
  simp only [Int.toNat_ofNat]
  rw [copyAt_goCopy_replicate]

theorem append_prepend_opcode (c : storageCommand)
    (hop : c.opcode = ascii "append" ∨ c.opcode = ascii "prepend") :
    c.opcode ≠ ascii "set" ∧ c.opcode ≠ ascii "add" ∧ c.opcode ≠ ascii "replace"
      ∧ c.opcode ≠ ascii "cas" := by
  rcases hop with h | h <;> rw [h] <;> decide

/-- C8 (the code at the failing input): every command carries data of length `data_size`.
`set n 0 100 1` with data `9` is `STORED`, `incr n 1` answers `10\r\n` and leaves the data
`10` with `dataSize` still 1, and `append n 0 100 1` with data `x` is `STORED` but leaves the
key with data `1x` and `dataSize` 2, not `10x` and 3. -/
theorem append_after_incr :
    ∃ s1,
      storageCommand.Execute ⟨ascii "set", ascii "n", 0, 100, 1, 0, false, ascii "9"⟩
        simpleCache.empty 0 = some (s1, ascii "STORED\r\n") ∧
      (incDecCommand.Execute ⟨ascii "incr", ascii "n", 1, false⟩ s1 0).2 = ascii "10\r\n" ∧
      (incDecCommand.Execute ⟨ascii "incr", ascii "n", 1, false⟩ s1 0).1.Get 0 (ascii "n")
        = some ⟨0, 0, 100, 1, 1, ascii "n", ascii "10"⟩ ∧
      (storageCommand.Execute ⟨ascii "append", ascii "n", 0, 100, 1, 0, false, ascii "x"⟩
        (incDecCommand.Execute ⟨ascii "incr", ascii "n", 1, false⟩ s1 0).1 0).map Prod.snd
        = some (ascii "STORED\r\n") ∧
      ((storageCommand.Execute ⟨ascii "append", ascii "n", 0, 100, 1, 0, false, ascii "x"⟩
        (incDecCommand.Execute ⟨ascii "incr", ascii "n", 1, false⟩ s1 0).1 0).bind
          (fun r => r.1.Get 0 (ascii "n")))
        = some ⟨0, 0, 100, 2, 2, ascii "n", ascii "1x"⟩ :=
  ⟨simpleCache.empty.Set ⟨0, 0, 100, 1, 1, ascii "n", ascii "9"⟩,
   rfl, by decide, by decide, by decide, by decide⟩

/-- C9 (counterexample): on the empty cache `append k 0 100 1` with data `x` writes
`STORED\r\n`, not `NOT_STORED\r\n`, the cache then holds an entry for `k`, and a following
`get k` writes the `VALUE` block of that entry, not only `END\r\n`. -/
theorem append_on_missing_key_counterexample :
    simpleCache.empty.Get 0 (ascii "k") = none ∧
    ∃ s1,
      storageCommand.Execute ⟨ascii "append", ascii "k", 0, 100, 1, 0, false, ascii "x"⟩
        simpleCache.empty 0 = some (s1, ascii "STORED\r\n") ∧
      ascii "STORED\r\n" ≠ ascii "NOT_STORED\r\n" ∧
      s1.entries (ascii "k") ≠ simpleCache.empty.entries (ascii "k") ∧
      retrievalCommand.Execute ⟨ascii "get", [ascii "k"]⟩ s1 0
        = ascii "VALUE k 0 1\r\nx\r\nEND\r\n" ∧
      retrievalCommand.Execute ⟨ascii "get", [ascii "k"]⟩ s1 0 ≠ ascii "END\r\n" :=
  ⟨rfl, simpleCache.empty.Set ⟨0, 0, 100, 1, 1, ascii "k", ascii "x"⟩,
   rfl, by decide, by decide, by decide, by decide⟩

/-- C9 (amended): `append` or `prepend` (without `noreply`) on a key that is absent or expired
writes `STORED\r\n` and installs the command's entry with `cas_unique` 1; when the command's
exp_time is relative (`1 ≤ E ≤ 2592000`) a following `get` for that key up to the deadline
writes the `VALUE` block of that entry and `END\r\n`. -/
theorem append_on_missing_key_stores (c : storageCommand) (s : simpleCache) (now : Int)
    (hop : c.opcode = ascii "append" ∨ c.opcode = ascii "prepend") (hnr : c.noReply = false)
    (hg : s.Get now c.key = none) :
    c.Execute s now
      = some (s.Set ⟨now, c.flags, c.expTime, c.dataSize, 1, c.key, c.data⟩,
          ascii "STORED\r\n") ∧
    (1 ≤ c.expTime → c.expTime ≤ 2592000 → ∀ t', t' ≤ now + c.expTime * second →
      retrievalCommand.Execute ⟨ascii "get", [c.key]⟩
          (s.Set ⟨now, c.flags, c.expTime, c.dataSize, 1, c.key, c.data⟩) t'
        = ascii "VALUE " ++ c.key ++ ascii " " ++ formatInt c.flags ++ ascii " "
            ++ formatInt c.dataSize ++ ascii "\r\n" ++ c.data ++ ascii "\r\n"
            ++ ascii "END\r\n") := by
  obtain ⟨h1, h2, h3, h4⟩ := append_prepend_opcode c hop
  constructor
  · rw [Execute_concat c s now h1 h2 h3 h4]
    simp [hg, reply, hnr, storageCommand.entry]
  · intro hE1 hE2 t' ht'
    have hv : (s.Set ⟨now, c.flags, c.expTime, c.dataSize, 1, c.key, c.data⟩).Get t' c.key
        = some ⟨now, c.flags, c.expTime, c.dataSize, 1, c.key, c.data⟩ :=
      Get_relative_visible _ t' c.key _
        (entries_Set_same s ⟨now, c.flags, c.expTime, c.dataSize, 1, c.key, c.data⟩) hE1 hE2 ht'
    simp [retrievalCommand.Execute, retrievalCommand.loop, retrievalCommand.writeKey, hv]

/-- C9 (amended) at a concrete input: `prepend k 0 100 1` with data `x` on the empty cache. -/
theorem append_on_missing_key_stores_witness :
    (((⟨ascii "prepend", ascii "k", 0, 100, 1, 0, false, ascii "x"⟩ : storageCommand).opcode
          = ascii "append" ∨
        (⟨ascii "prepend", ascii "k", 0, 100, 1, 0, false, ascii "x"⟩ : storageCommand).opcode
          = ascii "prepend") ∧
      (⟨ascii "prepend", ascii "k", 0, 100, 1, 0, false, ascii "x"⟩ : storageCommand).noReply
        = false ∧
      simpleCache.empty.Get 3 (ascii "k") = none) ∧
    storageCommand.Execute ⟨ascii "prepend", ascii "k", 0, 100, 1, 0, false, ascii "x"⟩
        simpleCache.empty 3
      = some (simpleCache.empty.Set ⟨3, 0, 100, 1, 1, ascii "k", ascii "x"⟩,
          ascii "STORED\r\n") :=
  ⟨⟨Or.inr rfl, rfl, rfl⟩,
   (append_on_missing_key_stores ⟨ascii "prepend", ascii "k", 0, 100, 1, 0, false, ascii "x"⟩
      simpleCache.empty 3 (Or.inr rfl) rfl rfl).1⟩

/-- C10 (counterexample): key `k` is present and unexpired with flags 1 and exp_time 100;
`append k 7 200 1` with data `x` is `STORED`, and afterwards the stored entry has flags 7 and
exp_time 200, not the old 1 and 100. -/
theorem append_metadata_counterexample :
    (simpleCache.empty.Set ⟨0, 1, 100, 1, 1, ascii "k", ascii "a"⟩).Get 5 (ascii "k")
      = some ⟨0, 1, 100, 1, 1, ascii "k", ascii "a"⟩ ∧
    ∃ s1 e,
      storageCommand.Execute ⟨ascii "append", ascii "k", 7, 200, 1, 0, false, ascii "x"⟩
        (simpleCache.empty.Set ⟨0, 1, 100, 1, 1, ascii "k", ascii "a"⟩) 5
        = some (s1, ascii "STORED\r\n") ∧
      s1.entries (ascii "k") = some e ∧ e.flags = 7 ∧ e.expTime = 200 ∧
      e.flags ≠ 1 ∧ e.expTime ≠ 100 :=
  ⟨by decide,
   (simpleCache.empty.Set ⟨0, 1, 100, 1, 1, ascii "k", ascii "a"⟩).Set
      ⟨5, 7, 200, 2, 2, ascii "k", ascii "ax"⟩,
   ⟨5, 7, 200, 2, 2, ascii "k", ascii "ax"⟩,
   rfl, by decide, rfl, rfl, by decide, by decide⟩

/-- C10 (amended): for every present, unexpired key, whenever an `append` or `prepend`
carrying flags `F'` and exp_time `E'` returns, the stored entry has the command's flags `F'`
and exp_time `E'` (the old entry's are not kept), the time of the command as creation time,
and `cas_unique` = old + 1 in Go `int` arithmetic; and the command does return, writing
`STORED\r\n` unless `noreply` is set, when the old entry and the command satisfy
`dataSize = len(data)` and the joint length is an `int`. -/
theorem append_prepend_command_metadata (c : storageCommand) (s : simpleCache) (now : Int)
    (old : cacheEntry)
    (hop : c.opcode = ascii "append" ∨ c.opcode = ascii "prepend")
    (hg : s.Get now c.key = some old) :
    (∀ s1 out, c.Execute s now = some (s1, out) →
      ∃ e, s1.entries c.key = some e ∧ e.flags = c.flags ∧ e.expTime = c.expTime ∧
        e.creation = now ∧ e.casUnique = wrapInt (old.casUnique + 1)) ∧
    (old.dataSize = old.data.length → c.dataSize = c.data.length →
      (old.data.length : Int) + c.data.length ≤ maxInt →
      ∃ s1, c.Execute s now = some (s1, reply c.noReply (ascii "STORED\r\n"))) := by
  obtain ⟨h1, h2, h3, h4⟩ := append_prepend_opcode c hop
  rw [Execute_concat c s now h1 h2 h3 h4]
  simp only [hg]
  constructor
  · intro s1 out h
    cases hc : storageCommand.concat c.opcode old (c.entry now 0) with
    | none => simp [hc] at h
    | some ndata =>
      simp only [hc, Option.some.injEq, Prod.mk.injEq] at h
      obtain ⟨hs, _⟩ := h
      subst hs
      exact ⟨{ c.entry now (wrapInt (old.casUnique + 1)) with
                 dataSize := ndata.length, data := ndata },
        by simp [simpleCache.Set, storageCommand.entry], rfl, rfl, rfl, rfl⟩
  · intro ho hn hlen
    have hc : ∃ ndata, storageCommand.concat c.opcode old (c.entry now 0) = some ndata := by
      rcases hop with h | h
      · exact ⟨_, concat_append c.opcode old (c.entry now 0) (by rw [h]; decide) ho hn hlen⟩
      · rw [h]
        exact ⟨_, concat_prepend old (c.entry now 0) ho hn hlen⟩
    obtain ⟨ndata, hc⟩ := hc
    simp [hc]

/-- C10 (amended) at a concrete input: key `k` stored with flags 1 and exp_time 100,
`append k 7 200 1` with data `x` at 5 ns. -/
theorem append_prepend_command_metadata_witness :
    (((⟨ascii "append", ascii "k", 7, 200, 1, 0, false, ascii "x"⟩ : storageCommand).opcode
          = ascii "append" ∨
        (⟨ascii "append", ascii "k", 7, 200, 1, 0, false, ascii "x"⟩ : storageCommand).opcode
          = ascii "prepend") ∧
      (simpleCache.empty.Set ⟨0, 1, 100, 1, 1, ascii "k", ascii "a"⟩).Get 5 (ascii "k")
        = some ⟨0, 1, 100, 1, 1, ascii "k", ascii "a"⟩) ∧
    ∃ s1, storageCommand.Execute ⟨ascii "append", ascii "k", 7, 200, 1, 0, false, ascii "x"⟩
        (simpleCache.empty.Set ⟨0, 1, 100, 1, 1, ascii "k", ascii "a"⟩) 5
      = some (s1, reply false (ascii "STORED\r\n")) :=
  ⟨⟨Or.inl rfl, by decide⟩,
   (append_prepend_command_metadata ⟨ascii "append", ascii "k", 7, 200, 1, 0, false, ascii "x"⟩
      (simpleCache.empty.Set ⟨0, 1, 100, 1, 1, ascii "k", ascii "a"⟩) 5
      ⟨0, 1, 100, 1, 1, ascii "k", ascii "a"⟩ (Or.inl rfl) (by decide)).2
      (by decide) (by decide) (by decide)⟩

/-! ## Decimal numerals: `strconv.Atoi` reads back what `%d` writes -/

theorem digit_toNat (d : Nat) (h : d < 10) : ((48 + d).toUInt8).toNat = 48 + d := by
  interval_cases d <;> rfl

/-- With enough fuel the digits do not depend on the fuel, and the accumulator is a suffix. -/
theorem digitsAux_eq (n : Nat) : ∀ (fuel : Nat) (acc : Bytes), n < fuel →
    digitsAux fuel n acc = formatNat n ++ acc := by
  induction n using Nat.strong_induction_on with
  | _ n ih =>
    intro fuel acc hf
    obtain ⟨f, rfl⟩ : ∃ f, fuel = f + 1 := ⟨fuel - 1, by omega⟩
    by_cases h10 : n < 10
    · simp [formatNat, digitsAux, h10]
    · have h1 : digitsAux (f + 1) n acc = digitsAux f (n / 10) ((48 + n % 10).toUInt8 :: acc) := by
        simp [digitsAux, h10]
      have h2 : formatNat n = digitsAux n (n / 10) [(48 + n % 10).toUInt8] := by
        simp [formatNat, digitsAux, h10]
      rw [h1, h2, ih (n / 10) (by omega) f _ (by omega), ih (n / 10) (by omega) n _ (by omega)]
      simp

theorem formatNat_small (n : Nat) (h : n < 10) : formatNat n = [(48 + n).toUInt8] := by
  simp [formatNat, digitsAux, h]

theorem formatNat_step (n : Nat) (h : ¬ n < 10) :
    formatNat n = formatNat (n / 10) ++ [(48 + n % 10).toUInt8] := by
  have h2 : formatNat n = digitsAux n (n / 10) [(48 + n % 10).toUInt8] := by
    simp [formatNat, digitsAux, h]
  rw [h2, digitsAux_eq (n / 10) n _ (by omega)]

theorem parseDigits_append (xs ys : Bytes) : ∀ acc : Nat,
    parseDigits (xs ++ ys) acc = (parseDigits xs acc).bind (parseDigits ys) := by
  induction xs with
  | nil => intro acc; simp [parseDigits]
  | cons x xs ih =>
    intro acc
    by_cases hx : 48 ≤ x.toNat ∧ x.toNat ≤ 57
    · simp [parseDigits, hx, ih]
    · simp [parseDigits, hx]

theorem parseDigits_digit (d : Nat) (h : d < 10) (acc : Nat) :
    parseDigits [(48 + d).toUInt8] acc = some (acc * 10 + d) := by
  simp [parseDigits, digit_toNat d h]
  omega

/-- Reading the numeral of `n` after the accumulator `acc` shifts `acc` by the length of the
numeral and adds `n`. -/
theorem parseDigits_formatNat (n : Nat) : ∀ acc : Nat,
    parseDigits (formatNat n) acc = some (acc * 10 ^ (formatNat n).length + n) := by
  induction n using Nat.strong_induction_on with
  | _ n ih =>
    intro acc
    by_cases h10 : n < 10
    · rw [formatNat_small n h10, parseDigits_digit n h10]
      simp
    · rw [formatNat_step n h10, parseDigits_append, ih (n / 10) (by omega)]
      simp only [List.length_append, List.length_singleton]
      rw [Option.some_bind, parseDigits_digit _ (Nat.mod_lt _ (by decide))]
      congr 1
      rw [pow_succ]
      nlinarith [Nat.div_add_mod n 10]

theorem formatNat_ne_nil (n : Nat) : formatNat n ≠ [] := by
  by_cases h10 : n < 10
  · rw [formatNat_small n h10]; simp
  · rw [formatNat_step n h10]; simp

/-- `strconv.Atoi` reads back the numeral written by `%d` for every non-negative `int`. -/
theorem Atoi_formatInt (v : Int) (h0 : 0 ≤ v) (h1 : v ≤ maxInt) : Atoi (formatInt v) = some v := by
  have hf : formatInt v = formatNat v.natAbs := by simp [formatInt, not_lt.mpr h0]
  have hp := parseDigits_formatNat v.natAbs 0
  simp only [zero_mul, zero_add] at hp
  rw [hf]
  cases hs : formatNat v.natAbs with
  | nil => exact absurd hs (formatNat_ne_nil _)
  | cons ch rest =>
    rw [hs] at hp
    have hch : 48 ≤ ch.toNat ∧ ch.toNat ≤ 57 := by
      by_contra hn
      simp [parseDigits, hn] at hp
    have h45 : ch ≠ 45 := by
      intro h; rw [h] at hch; revert hch; decide
    have h43 : ch ≠ 43 := by
      intro h; rw [h] at hch; revert hch; decide
    have hle : v.natAbs ≤ 9223372036854775807 := by simp only [maxInt] at h1; omega
    simp [Atoi, h45, h43, hp, hle]
    omega

/-! ## `delete` -/

theorem Get_eq_deadline (s : simpleCache) (now : Int) (k : Bytes) (e : cacheEntry)
    (h : s.entries k = some e) :
    s.Get now k = if now > e.deadline then none else some e := by
  rw [Get_of_entries s now k e h]
  rfl

/-- Whatever `Get` returns is the entry of the map. -/
theorem entries_of_Get (s : simpleCache) (now : Int) (k : Bytes) (e : cacheEntry)
    (h : s.Get now k = some e) : s.entries k = some e := by
  cases he : s.entries k with
  | none => simp [simpleCache.Get, he] at h
  | some e1 =>
    rw [Get_eq_deadline s now k e1 he] at h
    by_cases hd : now > e1.deadline
    · simp [hd] at h
    · simp [hd] at h
      rw [h]

theorem Execute_delete_present (c : deleteCommand) (s : simpleCache) (e : cacheEntry)
    (h : s.entries c.key = some e) :
    c.Execute s = (⟨fun k => if k = c.key then none else s.entries k⟩,
      reply c.noReply (ascii "DELETED\r\n")) := by
  simp [deleteCommand.Execute, simpleCache.Remove, h]

theorem Execute_delete_absent (c : deleteCommand) (s : simpleCache)
    (h : s.entries c.key = none) :
    c.Execute s = (s, reply c.noReply (ascii "NOT_FOUND\r\n")) := by
  simp [deleteCommand.Execute, simpleCache.Remove, h]

theorem get_of_absent (s : simpleCache) (now : Int) (k : Bytes) (h : s.entries k = none) :
    retrievalCommand.Execute ⟨ascii "get", [k]⟩ s now = ascii "END\r\n" := by
  simp [retrievalCommand.Execute, retrievalCommand.loop, retrievalCommand.writeKey,
    Get_of_entries_none s now k h]

/-- C11: for every key `K` that is present and unexpired, `delete K` (without `noreply`)
writes `DELETED\r\n` and removes `K`: afterwards the map has no entry for `K`, a following
`get K` at any time writes only `END\r\n`, and the entries of the other keys are unchanged;
for every key that is not in the map, `delete K` writes `NOT_FOUND\r\n` and leaves the cache
unchanged. In particular `set`, `delete`, `get` on one key ends with `END\r\n` only. -/
theorem delete_removes_visible_key (c : deleteCommand) (s : simpleCache)
    (hnr : c.noReply = false) :
    (∀ now e, s.Get now c.key = some e →
      (c.Execute s).2 = ascii "DELETED\r\n" ∧
      (c.Execute s).1.entries c.key = none ∧
      (∀ k, k ≠ c.key → (c.Execute s).1.entries k = s.entries k) ∧
      (∀ t', retrievalCommand.Execute ⟨ascii "get", [c.key]⟩ (c.Execute s).1 t'
        = ascii "END\r\n")) ∧
    (s.entries c.key = none → c.Execute s = (s, ascii "NOT_FOUND\r\n")) ∧
    (∀ (s0 : simpleCache) (F E n : Int) (D : Bytes) (t t' : Int),
      ∃ s1, storageCommand.Execute ⟨ascii "set", c.key, F, E, n, 0, false, D⟩ s0 t
              = some (s1, ascii "STORED\r\n") ∧
            (c.Execute s1).2 = ascii "DELETED\r\n" ∧
            retrievalCommand.Execute ⟨ascii "get", [c.key]⟩ (c.Execute s1).1 t'
              = ascii "END\r\n") := by
  refine ⟨?_, ?_, ?_⟩
  · intro now e hg
    have he := entries_of_Get s now c.key e hg
    rw [Execute_delete_present c s e he]
    refine ⟨by simp [reply, hnr], by simp, ?_, ?_⟩
    · intro k hk; simp [hk]
    · intro t'; exact get_of_absent _ t' c.key (by simp)
  · intro h
    rw [Execute_delete_absent c s h]
    simp [reply, hnr]
  · intro s0 F E n D t t'
    refine ⟨s0.Set ⟨t, F, E, n, 1, c.key, D⟩, ?_, ?_, ?_⟩
    · rw [Execute_set _ _ _ rfl]; simp [storageCommand.entry, reply]
    · rw [Execute_delete_present c _ _ (entries_Set_same s0 ⟨t, F, E, n, 1, c.key, D⟩)]
      simp [reply, hnr]
    · rw [Execute_delete_present c _ _ (entries_Set_same s0 ⟨t, F, E, n, 1, c.key, D⟩)]
      exact get_of_absent _ t' c.key (by simp)

/-- C11 at a concrete input: `delete foo` on a cache holding `foo` and `bar`. -/
theorem delete_removes_visible_key_witness :
    (⟨ascii "delete", ascii "foo", false⟩ : deleteCommand).noReply = false ∧
    (deleteCommand.Execute ⟨ascii "delete", ascii "foo", false⟩
        ((simpleCache.empty.Set ⟨0, 0, 100, 1, 1, ascii "bar", ascii "b"⟩).Set
          ⟨0, 0, 100, 1, 1, ascii "foo", ascii "a"⟩)).2 = ascii "DELETED\r\n" :=
  ⟨rfl,
   ((delete_removes_visible_key ⟨ascii "delete", ascii "foo", false⟩
      ((simpleCache.empty.Set ⟨0, 0, 100, 1, 1, ascii "bar", ascii "b"⟩).Set
        ⟨0, 0, 100, 1, 1, ascii "foo", ascii "a"⟩) rfl).1 5
      ⟨0, 0, 100, 1, 1, ascii "foo", ascii "a"⟩ (by decide)).1⟩

/-- C12 (the code at the failing input): key `k` was stored by `set k 0 1 1` at time 0 and is
read 2 s later, so it is in the map but expired (`Get` returns nothing, `get k` writes only
`END\r\n`, as on the empty cache); `delete k` on that cache writes `DELETED\r\n`, while on the
empty cache it writes `NOT_FOUND\r\n`. -/
theorem delete_expired_key :
    (simpleCache.empty.Set ⟨0, 0, 1, 1, 1, ascii "k", ascii "x"⟩).entries (ascii "k") ≠ none ∧
    (simpleCache.empty.Set ⟨0, 0, 1, 1, 1, ascii "k", ascii "x"⟩).Get 2000000000 (ascii "k")
      = none ∧
    retrievalCommand.Execute ⟨ascii "get", [ascii "k"]⟩
      (simpleCache.empty.Set ⟨0, 0, 1, 1, 1, ascii "k", ascii "x"⟩) 2000000000
      = retrievalCommand.Execute ⟨ascii "get", [ascii "k"]⟩ simpleCache.empty 2000000000 ∧
    (deleteCommand.Execute ⟨ascii "delete", ascii "k", false⟩
      (simpleCache.empty.Set ⟨0, 0, 1, 1, 1, ascii "k", ascii "x"⟩)).2 = ascii "DELETED\r\n" ∧
    (deleteCommand.Execute ⟨ascii "delete", ascii "k", false⟩ simpleCache.empty).2
      = ascii "NOT_FOUND\r\n" :=
  ⟨by decide, by decide, by decide, by decide, by decide⟩

/-- Every command other than `delete` consults the map through `Get` only: on a key that `Get`
does not return, a storage command writes the same bytes whatever the map holds for it. -/
theorem storage_reply_of_Get_none (c : storageCommand) (s s' : simpleCache) (now : Int)
    (h : s.Get now c.key = none) (h' : s'.Get now c.key = none) :
    (c.Execute s now).map Prod.snd = (c.Execute s' now).map Prod.snd := by
  unfold storageCommand.Execute
  rw [h, h']
  by_cases h1 : c.opcode = ascii "set"
  · simp only [if_pos h1, Option.map_some']
  · by_cases h2 : c.opcode = ascii "add"
    · simp only [if_neg h1, if_pos h2, Option.map_some']
    · by_cases h3 : c.opcode = ascii "replace"
      · simp only [if_neg h1, if_neg h2, if_pos h3, Option.map_some']
      · by_cases h4 : c.opcode = ascii "cas"
        · simp only [if_neg h1, if_neg h2, if_neg h3, if_pos h4, Option.map_some']
        · simp only [if_neg h1, if_neg h2, if_neg h3, if_neg h4, Option.map_some']

theorem incDec_touch_reply_of_Get_none (ci : incDecCommand) (ct : touchCommand)
    (s s' : simpleCache) (now : Int)
    (hi : s.Get now ci.key = none) (hi' : s'.Get now ci.key = none)
    (ht : s.Get now ct.key = none) (ht' : s'.Get now ct.key = none) :
    (ci.Execute s now).2 = (ci.Execute s' now).2 ∧ (ct.Execute s now).2 = (ct.Execute s' now).2 := by
  simp [incDecCommand.Execute, touchCommand.Execute, hi, hi', ht, ht']

theorem retrieval_reply_of_Get_none (opcode : Bytes) (s s' : simpleCache) (now : Int)
    (keys : List Bytes) (h : ∀ k ∈ keys, s.Get now k = none ∧ s'.Get now k = none) :
    retrievalCommand.Execute ⟨opcode, keys⟩ s now = retrievalCommand.Execute ⟨opcode, keys⟩ s' now := by
  simp only [retrievalCommand.Execute]
  induction keys with
  | nil => rfl
  | cons k rest ih =>
    have hk := h k (List.mem_cons_self k rest)
    simp only [retrievalCommand.loop, retrievalCommand.writeKey, hk.1, hk.2]
    rw [ih (fun k1 hk1 => h k1 (List.mem_cons_of_mem k hk1))]

/-! ## `incr` and `decr` -/

theorem entries_mutate_same (s : simpleCache) (key : Bytes) (e : cacheEntry) :
    (s.mutate key e).entries key = some e := by
  by_cases h : key = e.key <;> simp [simpleCache.mutate, simpleCache.Set, h]

theorem entries_mutate_other (s : simpleCache) (key k : Bytes) (e : cacheEntry)
    (h1 : k ≠ key) (h2 : k ≠ e.key) : (s.mutate key e).entries k = s.entries k := by
  simp [simpleCache.mutate, simpleCache.Set, h1, h2]

theorem Execute_incDec (c : incDecCommand) (s : simpleCache) (now : Int) (e : cacheEntry)
    (v : Int) (hg : s.Get now c.key = some e) (hv : Atoi e.data = some v) :
    c.Execute s now =
      (s.mutate c.key { e with data := formatInt (c.newValue v) },
       reply c.noReply (formatInt (c.newValue v) ++ ascii "\r\n")) := by
  simp [incDecCommand.Execute, incDecCommand.newValue, hg, hv]

theorem Get_of_le_deadline (s : simpleCache) (now : Int) (k : Bytes) (e : cacheEntry)
    (h : s.entries k = some e) (hd : now ≤ e.deadline) : s.Get now k = some e := by
  rw [Get_eq_deadline s now k e h, if_neg (by omega)]

/-- The general statement of C13: for every present, unexpired key whose data
`strconv.Atoi` reads as the number `v`, and every delta, `incr` / `decr` (without `noreply`)
computes the new value `w`, writes exactly the decimal of `w` followed by `\r\n`, rewrites
the entry's data to exactly the decimal of `w` and leaves flags and exp_time unchanged; on an
absent or expired key it writes `NOT_FOUND\r\n` and leaves the cache unchanged. After
`set n 0 E 1` with data `9`, at instants `t1`, `t2` not after the deadline of the entry,
`incr n 3` writes `12\r\n` and then `decr n 100` writes `0\r\n`; for `E` = 0 the deadline
is the instant of the `set`. -/
theorem incr_decr_reply_and_data (c : incDecCommand) (s : simpleCache) (now : Int)
    (hnr : c.noReply = false) :
    (∀ e v, s.Get now c.key = some e → Atoi e.data = some v →
      ∃ w e1,
        w = (if c.opcode = ascii "incr" then wrapInt (v + c.value)
             else if wrapInt (v - c.value) ≥ 0 then wrapInt (v - c.value) else 0) ∧
        w = c.newValue v ∧
        (c.Execute s now).2 = formatInt w ++ ascii "\r\n" ∧
        (c.Execute s now).1.entries c.key = some e1 ∧
        e1.data = formatInt w ∧ e1.flags = e.flags ∧ e1.expTime = e.expTime) ∧
    (s.Get now c.key = none → c.Execute s now = (s, ascii "NOT_FOUND\r\n")) ∧
    (∀ (s0 : simpleCache) (E t t1 t2 : Int),
      t1 ≤ (⟨t, 0, E, 1, 1, ascii "n", ascii "9"⟩ : cacheEntry).deadline →
      t2 ≤ (⟨t, 0, E, 1, 1, ascii "n", ascii "9"⟩ : cacheEntry).deadline →
      ∃ s1,
        storageCommand.Execute ⟨ascii "set", ascii "n", 0, E, 1, 0, false, ascii "9"⟩ s0 t
          = some (s1, ascii "STORED\r\n") ∧
        (incDecCommand.Execute ⟨ascii "incr", ascii "n", 3, false⟩ s1 t1).2 = ascii "12\r\n" ∧
        (incDecCommand.Execute ⟨ascii "decr", ascii "n", 100, false⟩
          (incDecCommand.Execute ⟨ascii "incr", ascii "n", 3, false⟩ s1 t1).1 t2).2
          = ascii "0\r\n") := by
  refine ⟨?_, ?_, ?_⟩
  · intro e v hg hv
    rw [Execute_incDec c s now e v hg hv]
    exact ⟨c.newValue v, _, rfl, rfl, by simp [reply, hnr], entries_mutate_same _ _ _,
      rfl, rfl, rfl⟩
  · intro hg
    simp [incDecCommand.Execute, hg, reply, hnr]
  · intro s0 E t t1 t2 h1 h2
    refine ⟨s0.Set ⟨t, 0, E, 1, 1, ascii "n", ascii "9"⟩, ?_, ?_, ?_⟩
    · rw [Execute_set _ _ _ rfl]; simp [storageCommand.entry, reply]
    · have hg := Get_of_le_deadline _ t1 (ascii "n") _
        (entries_Set_same s0 ⟨t, 0, E, 1, 1, ascii "n", ascii "9"⟩) h1
      have ha : Atoi (ascii "9") = some 9 := by decide
      rw [Execute_incDec ⟨ascii "incr", ascii "n", 3, false⟩ _ t1 _ 9 hg ha]
      show reply false (formatInt ((⟨ascii "incr", ascii "n", 3, false⟩ : incDecCommand).newValue 9)
        ++ ascii "\r\n") = ascii "12\r\n"
      decide
    · have hg := Get_of_le_deadline _ t1 (ascii "n") _
        (entries_Set_same s0 ⟨t, 0, E, 1, 1, ascii "n", ascii "9"⟩) h1
      have ha : Atoi (ascii "9") = some 9 := by decide
      rw [Execute_incDec ⟨ascii "incr", ascii "n", 3, false⟩ _ t1 _ 9 hg ha]
      have hw : formatInt ((⟨ascii "incr", ascii "n", 3, false⟩ : incDecCommand).newValue 9)
          = ascii "12" := by decide
      simp only [hw]
      have hg2 := Get_of_le_deadline
        ((s0.Set ⟨t, 0, E, 1, 1, ascii "n", ascii "9"⟩).mutate (ascii "n")
          ⟨t, 0, E, 1, 1, ascii "n", ascii "12"⟩) t2 (ascii "n")
        ⟨t, 0, E, 1, 1, ascii "n", ascii "12"⟩ (entries_mutate_same _ _ _) h2
      have ha2 : Atoi (ascii "12") = some 12 := by decide
      rw [Execute_incDec ⟨ascii "decr", ascii "n", 100, false⟩ _ t2 _ 12 hg2 ha2]
      show reply false (formatInt ((⟨ascii "decr", ascii "n", 100, false⟩ : incDecCommand).newValue 12)
        ++ ascii "\r\n") = ascii "0\r\n"
      decide

/-- The general statement of C13 at a concrete input: key `n` holding `9`, `incr n 3` at
5 ns. -/
theorem incr_decr_reply_and_data_witness :
    (⟨ascii "incr", ascii "n", 3, false⟩ : incDecCommand).noReply = false ∧
    ∃ w, w = (⟨ascii "incr", ascii "n", 3, false⟩ : incDecCommand).newValue 9 ∧
      (incDecCommand.Execute ⟨ascii "incr", ascii "n", 3, false⟩
        (simpleCache.empty.Set ⟨0, 0, 100, 1, 1, ascii "n", ascii "9"⟩) 5).2
        = formatInt w ++ ascii "\r\n" := by
  refine ⟨rfl, ?_⟩
  obtain ⟨w, _, _, hw, hout, _⟩ :=
    (incr_decr_reply_and_data ⟨ascii "incr", ascii "n", 3, false⟩
      (simpleCache.empty.Set ⟨0, 0, 100, 1, 1, ascii "n", ascii "9"⟩) 5 rfl).1
      ⟨0, 0, 100, 1, 1, ascii "n", ascii "9"⟩ 9 (by decide) (by decide)
  exact ⟨w, hw, hout⟩

/-- C13 (the code at the failing input): `set n 0 0 1` with data `9` at time 0 is answered by
`STORED\r\n`; `incr n 3` one nanosecond later finds the key expired and writes
`NOT_FOUND\r\n`, not `12\r\n`, and the data stays `9`. -/
theorem incr_after_set_exptime_zero :
    ∃ s1,
      storageCommand.Execute ⟨ascii "set", ascii "n", 0, 0, 1, 0, false, ascii "9"⟩
        simpleCache.empty 0 = some (s1, ascii "STORED\r\n") ∧
      (incDecCommand.Execute ⟨ascii "incr", ascii "n", 3, false⟩ s1 1).2
        = ascii "NOT_FOUND\r\n" ∧
      ascii "NOT_FOUND\r\n" ≠ ascii "12\r\n" ∧
      (incDecCommand.Execute ⟨ascii "incr", ascii "n", 3, false⟩ s1 1).1.entries (ascii "n")
        = some ⟨0, 0, 0, 1, 1, ascii "n", ascii "9"⟩ :=
  ⟨simpleCache.empty.Set ⟨0, 0, 0, 1, 1, ascii "n", ascii "9"⟩,
   rfl, by decide, by decide, by decide⟩

/-- C14 (counterexample): key `n` holds the decimal of 2^63 - 1 and `incr n 1` writes
`-9223372036854775808\r\n`, not the decimal of (2^63 - 1 + 1) mod 2^64 = 9223372036854775808;
and when key `m` holds the decimal of 2^63, an unsigned 64-bit value, `incr m 1` does not
succeed: it writes `ERROR\r\n`. -/
theorem incr_unsigned_counterexample :
    (simpleCache.empty.Set ⟨0, 0, 100, 19, 1, ascii "n", ascii "9223372036854775807"⟩).Get 0
        (ascii "n") = some ⟨0, 0, 100, 19, 1, ascii "n", ascii "9223372036854775807"⟩ ∧
    (incDecCommand.Execute ⟨ascii "incr", ascii "n", 1, false⟩
      (simpleCache.empty.Set ⟨0, 0, 100, 19, 1, ascii "n", ascii "9223372036854775807"⟩) 0).2
      = ascii "-9223372036854775808\r\n" ∧
    (9223372036854775807 + 1) % 18446744073709551616 = (9223372036854775808 : Int) ∧
    ascii "-9223372036854775808\r\n" ≠ formatInt 9223372036854775808 ++ ascii "\r\n" ∧
    (simpleCache.empty.Set ⟨0, 0, 100, 19, 1, ascii "m", ascii "9223372036854775808"⟩).Get 0
        (ascii "m") = some ⟨0, 0, 100, 19, 1, ascii "m", ascii "9223372036854775808"⟩ ∧
    (incDecCommand.Execute ⟨ascii "incr", ascii "m", 1, false⟩
      (simpleCache.empty.Set ⟨0, 0, 100, 19, 1, ascii "m", ascii "9223372036854775808"⟩) 0).2
      = ascii "ERROR\r\n" :=
  ⟨by decide, by decide, by decide, by decide, by decide, by decide⟩

/-- C14 (amended): `incr` works on Go's signed 64-bit `int`. For every present, unexpired entry
whose data is the decimal of `v` with `0 ≤ v < 2^63` and every delta `d` with `0 ≤ d < 2^63`,
`incr` succeeds, and the new value, written in the reply and stored as the data, is `v + d`
when `v + d < 2^63` and the negative number `v + d - 2^64` otherwise. -/
theorem incr_wraps_signed (c : incDecCommand) (s : simpleCache) (now : Int) (e : cacheEntry)
    (v : Int) (hop : c.opcode = ascii "incr") (hg : s.Get now c.key = some e)
    (hdata : e.data = formatInt v) (hv0 : 0 ≤ v) (hv1 : v ≤ maxInt)
    (hd0 : 0 ≤ c.value) (hd1 : c.value ≤ maxInt) :
    ∃ w, w = (if v + c.value ≤ maxInt then v + c.value
              else v + c.value - 18446744073709551616) ∧
      c.Execute s now = (s.mutate c.key { e with data := formatInt w },
        reply c.noReply (formatInt w ++ ascii "\r\n")) := by
  have ha : Atoi e.data = some v := by rw [hdata]; exact Atoi_formatInt v hv0 hv1
  rw [Execute_incDec c s now e v hg ha]
  have hw : c.newValue v = (if v + c.value ≤ maxInt then v + c.value
      else v + c.value - 18446744073709551616) := by
    simp only [incDecCommand.newValue, if_pos hop, wrapInt, maxInt] at *
    split <;> omega
  exact ⟨_, rfl, by rw [hw]⟩

/-- C14 (amended) at a concrete input: key `n` holding `41`, `incr n 1` at 5 ns. -/
theorem incr_wraps_signed_witness :
    ((⟨ascii "incr", ascii "n", 1, false⟩ : incDecCommand).opcode = ascii "incr" ∧
      (simpleCache.empty.Set ⟨0, 0, 100, 2, 1, ascii "n", ascii "41"⟩).Get 5 (ascii "n")
        = some ⟨0, 0, 100, 2, 1, ascii "n", ascii "41"⟩ ∧
      ascii "41" = formatInt 41) ∧
    ∃ w, w = (if (41 : Int) + 1 ≤ maxInt then (41 : Int) + 1
              else 41 + 1 - 18446744073709551616) ∧
      incDecCommand.Execute ⟨ascii "incr", ascii "n", 1, false⟩
          (simpleCache.empty.Set ⟨0, 0, 100, 2, 1, ascii "n", ascii "41"⟩) 5
        = ((simpleCache.empty.Set ⟨0, 0, 100, 2, 1, ascii "n", ascii "41"⟩).mutate (ascii "n")
            ⟨0, 0, 100, 2, 1, ascii "n", formatInt w⟩,
           reply false (formatInt w ++ ascii "\r\n")) :=
  ⟨⟨rfl, by decide, by decide⟩,
   incr_wraps_signed ⟨ascii "incr", ascii "n", 1, false⟩
     (simpleCache.empty.Set ⟨0, 0, 100, 2, 1, ascii "n", ascii "41"⟩) 5
     ⟨0, 0, 100, 2, 1, ascii "n", ascii "41"⟩ 41 rfl (by decide) (by decide) (by decide)
     (by decide) (by decide) (by decide)⟩

/-- C15 (counterexample): key `k` is present and unexpired and holds the decimal of
`v` = 2^63; `decr k 1` does not yield `v - 1` = 9223372036854775807: it writes `ERROR\r\n`
and the data is unchanged. -/
theorem decr_large_counterexample :
    (simpleCache.empty.Set ⟨0, 0, 100, 19, 1, ascii "k", ascii "9223372036854775808"⟩).Get 0
        (ascii "k") = some ⟨0, 0, 100, 19, 1, ascii "k", ascii "9223372036854775808"⟩ ∧
    ascii "9223372036854775808" = formatInt 9223372036854775808 ∧
    (incDecCommand.Execute ⟨ascii "decr", ascii "k", 1, false⟩
      (simpleCache.empty.Set ⟨0, 0, 100, 19, 1, ascii "k", ascii "9223372036854775808"⟩) 0).2
      = ascii "ERROR\r\n" ∧
    ascii "ERROR\r\n" ≠ formatInt (9223372036854775808 - 1) ++ ascii "\r\n" ∧
    (incDecCommand.Execute ⟨ascii "decr", ascii "k", 1, false⟩
      (simpleCache.empty.Set ⟨0, 0, 100, 19, 1, ascii "k", ascii "9223372036854775808"⟩)
      0).1.entries (ascii "k")
      = some ⟨0, 0, 100, 19, 1, ascii "k", ascii "9223372036854775808"⟩ :=
  ⟨by decide, by decide, by decide, by decide, by decide⟩

/-- C15 (amended): `decr` floors at 0. For every present, unexpired entry whose data is the
decimal of `v` with `0 ≤ v < 2^63` and every delta `d` with `0 ≤ d < 2^63`, `decr` yields
`v - d` when `d ≤ v` and 0 when `d > v`; and for every entry data that `strconv.Atoi` reads
and every delta value, with the wrap-around subtraction of the machine, the value `decr`
writes and stores is never below zero. -/
theorem decr_floors_at_zero (c : incDecCommand) (s : simpleCache) (now : Int) (e : cacheEntry)
    (hop : c.opcode = ascii "decr") (hg : s.Get now c.key = some e) :
    (∀ v, e.data = formatInt v → 0 ≤ v → v ≤ maxInt → 0 ≤ c.value → c.value ≤ maxInt →
      ∃ w, w = (if c.value ≤ v then v - c.value else 0) ∧
        c.Execute s now = (s.mutate c.key { e with data := formatInt w },
          reply c.noReply (formatInt w ++ ascii "\r\n"))) ∧
    (∀ v, Atoi e.data = some v →
      ∃ w, 0 ≤ w ∧
        c.Execute s now = (s.mutate c.key { e with data := formatInt w },
          reply c.noReply (formatInt w ++ ascii "\r\n"))) := by
  have hne : c.opcode ≠ ascii "incr" := by rw [hop]; decide
  constructor
  · intro v hdata hv0 hv1 hd0 hd1
    have ha : Atoi e.data = some v := by rw [hdata]; exact Atoi_formatInt v hv0 hv1
    rw [Execute_incDec c s now e v hg ha]
    have hw : c.newValue v = (if c.value ≤ v then v - c.value else 0) := by
      have hr : wrapInt (v - c.value) = v - c.value := by
        apply wrapInt_of_range <;> simp only [maxInt] at hv1 hd1 <;> omega
      simp only [incDecCommand.newValue, if_neg hne, hr]
      split <;> split <;> omega
    exact ⟨_, rfl, by rw [hw]⟩
  · intro v ha
    rw [Execute_incDec c s now e v hg ha]
    refine ⟨c.newValue v, ?_, rfl⟩
    simp only [incDecCommand.newValue, if_neg hne]
    split
    · assumption
    · exact le_refl 0

/-- C15 (amended) at a concrete input: key `n` holding `12`, `decr n 100` at 5 ns. -/
theorem decr_floors_at_zero_witness :
    ((⟨ascii "decr", ascii "n", 100, false⟩ : incDecCommand).opcode = ascii "decr" ∧
      (simpleCache.empty.Set ⟨0, 0, 100, 2, 1, ascii "n", ascii "12"⟩).Get 5 (ascii "n")
        = some ⟨0, 0, 100, 2, 1, ascii "n", ascii "12"⟩) ∧
    ∃ w, w = (if (100 : Int) ≤ 12 then (12 : Int) - 100 else 0) ∧
      incDecCommand.Execute ⟨ascii "decr", ascii "n", 100, false⟩
          (simpleCache.empty.Set ⟨0, 0, 100, 2, 1, ascii "n", ascii "12"⟩) 5
        = ((simpleCache.empty.Set ⟨0, 0, 100, 2, 1, ascii "n", ascii "12"⟩).mutate (ascii "n")
            ⟨0, 0, 100, 2, 1, ascii "n", formatInt w⟩,
           reply false (formatInt w ++ ascii "\r\n")) :=
  ⟨⟨rfl, by decide⟩,
   (decr_floors_at_zero ⟨ascii "decr", ascii "n", 100, false⟩
     (simpleCache.empty.Set ⟨0, 0, 100, 2, 1, ascii "n", ascii "12"⟩) 5
     ⟨0, 0, 100, 2, 1, ascii "n", ascii "12"⟩ rfl (by decide)).1 12
     (by decide) (by decide) (by decide) (by decide) (by decide)⟩

/-- C16 (counterexample): key `k` is present and unexpired with the non-numeric data `abc`;
`incr k 1` writes `ERROR\r\n`, not
`CLIENT_ERROR cannot increment or decrement non-numeric value\r\n`, and `incr k 1 noreply`
writes nothing. -/
theorem incr_non_numeric_counterexample :
    (simpleCache.empty.Set ⟨0, 0, 100, 3, 1, ascii "k", ascii "abc"⟩).Get 0 (ascii "k")
      = some ⟨0, 0, 100, 3, 1, ascii "k", ascii "abc"⟩ ∧
    Atoi (ascii "abc") = none ∧
    (incDecCommand.Execute ⟨ascii "incr", ascii "k", 1, false⟩
      (simpleCache.empty.Set ⟨0, 0, 100, 3, 1, ascii "k", ascii "abc"⟩) 0).2
      = ascii "ERROR\r\n" ∧
    ascii "ERROR\r\n"
      ≠ ascii "CLIENT_ERROR cannot increment or decrement non-numeric value\r\n" ∧
    (incDecCommand.Execute ⟨ascii "incr", ascii "k", 1, true⟩
      (simpleCache.empty.Set ⟨0, 0, 100, 3, 1, ascii "k", ascii "abc"⟩) 0).2 = [] :=
  ⟨by decide, by decide, by decide, by decide, by decide⟩

/-- C16 (amended): for every present, unexpired entry whose data `strconv.Atoi` does not read
as a decimal `int`, `incr` / `decr` writes `ERROR\r\n` when the command does not carry
`noreply`, writes nothing when it does, and leaves the cache, hence the entry, unchanged. -/
theorem incr_decr_non_numeric (c : incDecCommand) (s : simpleCache) (now : Int)
    (e : cacheEntry) (hg : s.Get now c.key = some e) (ha : Atoi e.data = none) :
    c.Execute s now = (s, if c.noReply then [] else ascii "ERROR\r\n") := by
  simp [incDecCommand.Execute, hg, ha, reply]

/-- C16 (amended) at a concrete input: `decr k 1 noreply` on the data `abc`. -/
theorem incr_decr_non_numeric_witness :
    ((simpleCache.empty.Set ⟨0, 0, 100, 3, 1, ascii "k", ascii "abc"⟩).Get 5 (ascii "k")
        = some ⟨0, 0, 100, 3, 1, ascii "k", ascii "abc"⟩ ∧
      Atoi (ascii "abc") = none) ∧
    incDecCommand.Execute ⟨ascii "decr", ascii "k", 1, true⟩
        (simpleCache.empty.Set ⟨0, 0, 100, 3, 1, ascii "k", ascii "abc"⟩) 5
      = (simpleCache.empty.Set ⟨0, 0, 100, 3, 1, ascii "k", ascii "abc"⟩,
         if true then [] else ascii "ERROR\r\n") :=
  ⟨⟨by decide, by decide⟩,
   incr_decr_non_numeric ⟨ascii "decr", ascii "k", 1, true⟩
     (simpleCache.empty.Set ⟨0, 0, 100, 3, 1, ascii "k", ascii "abc"⟩) 5
     ⟨0, 0, 100, 3, 1, ascii "k", ascii "abc"⟩ (by decide) (by decide)⟩

/-- C17 (the code at the failing input): every command carries data of length `data_size`.
After `set n 0 100 1` with data `9` and `incr n 1`, the entry that `Get` returns has two data
bytes and `dataSize` 1, and `get n` writes `VALUE n 0 1\r\n10\r\nEND\r\n`: the `<bytes>`
field says 1 and two data bytes follow. -/
theorem data_size_after_incr :
    ∃ s1,
      storageCommand.Execute ⟨ascii "set", ascii "n", 0, 100, 1, 0, false, ascii "9"⟩
        simpleCache.empty 0 = some (s1, ascii "STORED\r\n") ∧
      (incDecCommand.Execute ⟨ascii "incr", ascii "n", 1, false⟩ s1 0).2 = ascii "10\r\n" ∧
      ((incDecCommand.Execute ⟨ascii "incr", ascii "n", 1, false⟩ s1 0).1.Get 0 (ascii "n")).map
        (fun e => ((e.data.length : Int), e.dataSize)) = some (2, 1) ∧
      retrievalCommand.Execute ⟨ascii "get", [ascii "n"]⟩
        (incDecCommand.Execute ⟨ascii "incr", ascii "n", 1, false⟩ s1 0).1 0
        = ascii "VALUE n 0 1\r\n10\r\nEND\r\n" :=
  ⟨simpleCache.empty.Set ⟨0, 0, 100, 1, 1, ascii "n", ascii "9"⟩,
   rfl, by decide, by decide, by decide⟩

/-! ## The map invariant -/

theorem keyed_empty : simpleCache.empty.keyed := by
  intro k e h
  simp [simpleCache.empty] at h

theorem keyed_Set (s : simpleCache) (e : cacheEntry) (h : s.keyed) : (s.Set e).keyed := by
  intro k e1 h1
  by_cases hk : k = e.key
  · rw [hk, entries_Set_same] at h1
    cases h1
    exact hk.symm
  · rw [entries_Set_other s e k hk] at h1
    exact h k e1 h1

theorem keyed_mutate (s : simpleCache) (key : Bytes) (e : cacheEntry) (h : s.keyed)
    (he : e.key = key) : (s.mutate key e).keyed := by
  intro k e1 h1
  by_cases hk : k = key
  · rw [hk, entries_mutate_same] at h1
    cases h1
    rw [hk]; exact he
  · rw [entries_mutate_other s key k e hk (by rw [he]; exact hk)] at h1
    exact h k e1 h1

theorem keyed_Get (s : simpleCache) (now : Int) (k : Bytes) (e : cacheEntry) (h : s.keyed)
    (hg : s.Get now k = some e) : e.key = k :=
  h k e (entries_of_Get s now k e hg)

/-- Every command keeps each entry under its own key. -/
theorem keyed_storage (c : storageCommand) (s s1 : simpleCache) (now : Int) (out : Bytes)
    (h : s.keyed) (hx : c.Execute s now = some (s1, out)) : s1.keyed := by
  unfold storageCommand.Execute at hx
  split at hx
  · cases hx; exact keyed_Set _ _ h
  · split at hx
    · split at hx
      · cases hx; exact keyed_Set _ _ h
      · split at hx
        · cases hx; exact h
        · split at hx
          · cases hx; exact h
          · cases hx; exact keyed_Set _ _ h
    · split at hx
      · cases hx; exact h
      · split at hx
        · cases hx; exact keyed_Set _ _ h
        · split at hx
          · split at hx
            · cases hx; exact h
            · cases hx; exact keyed_Set _ _ h
          · split at hx
            · cases hx
            · cases hx; exact keyed_Set _ _ h

theorem keyed_delete (c : deleteCommand) (s : simpleCache) (h : s.keyed) :
    (c.Execute s).1.keyed := by
  cases he : s.entries c.key with
  | none => rw [Execute_delete_absent c s he]; exact h
  | some e =>
    rw [Execute_delete_present c s e he]
    intro k e1 h1
    by_cases hk : k = c.key
    · simp [hk] at h1
    · simp [hk] at h1
      exact h k e1 h1

theorem keyed_incDec (c : incDecCommand) (s : simpleCache) (now : Int) (h : s.keyed) :
    (c.Execute s now).1.keyed := by
  cases hg : s.Get now c.key with
  | none => simp [incDecCommand.Execute, hg]; exact h
  | some e =>
    cases ha : Atoi e.data with
    | none => simp [incDecCommand.Execute, hg, ha]; exact h
    | some v =>
      rw [Execute_incDec c s now e v hg ha]
      exact keyed_mutate s c.key _ h (keyed_Get s now c.key e h hg)

theorem Execute_touch (c : touchCommand) (s : simpleCache) (now : Int) (e : cacheEntry)
    (hg : s.Get now c.key = some e) :
    c.Execute s now = (s.mutate c.key ⟨e.creation, e.flags, c.expTime, e.dataSize, e.casUnique,
      e.key, e.data⟩, reply c.noReply (ascii "TOUCHED\r\n")) := by
  simp [touchCommand.Execute, hg]

theorem keyed_touch (c : touchCommand) (s : simpleCache) (now : Int) (h : s.keyed) :
    (c.Execute s now).1.keyed := by
  cases hg : s.Get now c.key with
  | none => simp [touchCommand.Execute, hg]; exact h
  | some e =>
    rw [Execute_touch c s now e hg]
    exact keyed_mutate s c.key _ h (keyed_Get s now c.key e h hg)

/-! ## `touch` -/

theorem TOUCHED_ne_NOT_FOUND : ascii "TOUCHED\r\n" ≠ ascii "NOT_FOUND\r\n" := by decide

/-- C18: a `touch` command on key `K` with exp_time `E` (without `noreply`) writes
`TOUCHED\r\n` iff `K` is present and unexpired, and then `K`'s exp_time becomes `E` while its
`cas_unique`, flags, data and `data_size` (and its creation time) are unchanged; otherwise it
writes `NOT_FOUND\r\n` and the cache is unchanged. In every cache whose entries sit under their
own keys, the entries of the other keys are not changed. -/
theorem touch_outcome_and_frame (c : touchCommand) (s : simpleCache) (now : Int)
    (hnr : c.noReply = false) :
    ∃ s1 out, c.Execute s now = (s1, out) ∧
      (out = ascii "TOUCHED\r\n" ↔ ∃ e, s.Get now c.key = some e) ∧
      (∀ e, s.Get now c.key = some e →
        s1.entries c.key
          = some ⟨e.creation, e.flags, c.expTime, e.dataSize, e.casUnique, e.key, e.data⟩) ∧
      (s.Get now c.key = none → out = ascii "NOT_FOUND\r\n" ∧ s1 = s) ∧
      (s.keyed → ∀ k, k ≠ c.key → s1.entries k = s.entries k) := by
  cases hg : s.Get now c.key with
  | none =>
    refine ⟨s, ascii "NOT_FOUND\r\n", by simp [touchCommand.Execute, hg, reply, hnr], ?_, ?_, ?_, ?_⟩
    · simp [Ne.symm TOUCHED_ne_NOT_FOUND]
    · intro e h; cases h
    · intro _; exact ⟨rfl, rfl⟩
    · intro _ k _; rfl
  | some e =>
    refine ⟨s.mutate c.key ⟨e.creation, e.flags, c.expTime, e.dataSize, e.casUnique, e.key,
        e.data⟩, ascii "TOUCHED\r\n", by rw [Execute_touch c s now e hg]; simp [reply, hnr],
      ?_, ?_, ?_, ?_⟩
    · simp
    · intro e1 h; cases h
      exact entries_mutate_same _ _ _
    · intro h; cases h
    · intro hk k hne
      exact entries_mutate_other s c.key k _ hne (by
        have := keyed_Get s now c.key e hk hg
        simp only [this]; exact hne)

/-- C18 at a concrete input: `touch foo 7` on a cache holding `foo`. -/
theorem touch_outcome_and_frame_witness :
    (⟨ascii "touch", ascii "foo", 7, false⟩ : touchCommand).noReply = false ∧
    ∃ s1 out, touchCommand.Execute ⟨ascii "touch", ascii "foo", 7, false⟩
        (simpleCache.empty.Set ⟨0, 3, 100, 1, 4, ascii "foo", ascii "a"⟩) 5 = (s1, out) ∧
      (out = ascii "TOUCHED\r\n" ↔
        ∃ e, (simpleCache.empty.Set ⟨0, 3, 100, 1, 4, ascii "foo", ascii "a"⟩).Get 5
          (ascii "foo") = some e) := by
  refine ⟨rfl, ?_⟩
  obtain ⟨s1, out, h, h1, _⟩ :=
    touch_outcome_and_frame ⟨ascii "touch", ascii "foo", 7, false⟩
      (simpleCache.empty.Set ⟨0, 3, 100, 1, 4, ascii "foo", ascii "a"⟩) 5 rfl
  exact ⟨s1, out, h, h1⟩

/-- C19 (the code at the failing input): `set k 0 100 1` with data `x` at time 0, then
`touch k 10` at t = 50 s is answered by `TOUCHED\r\n`; the entry keeps the creation time 0 with
the new exp_time 10, and `get k` at that same instant t, within `t ≤ t' ≤ t + 10` s, writes
only `END\r\n`. -/
theorem touch_keeps_creation :
    ∃ s1,
      storageCommand.Execute ⟨ascii "set", ascii "k", 0, 100, 1, 0, false, ascii "x"⟩
        simpleCache.empty 0 = some (s1, ascii "STORED\r\n") ∧
      (touchCommand.Execute ⟨ascii "touch", ascii "k", 10, false⟩ s1 50000000000).2
        = ascii "TOUCHED\r\n" ∧
      (touchCommand.Execute ⟨ascii "touch", ascii "k", 10, false⟩ s1 50000000000).1.entries
        (ascii "k") = some ⟨0, 0, 10, 1, 1, ascii "k", ascii "x"⟩ ∧
      retrievalCommand.Execute ⟨ascii "get", [ascii "k"]⟩
        (touchCommand.Execute ⟨ascii "touch", ascii "k", 10, false⟩ s1 50000000000).1
        50000000000 = ascii "END\r\n" :=
  ⟨simpleCache.empty.Set ⟨0, 0, 100, 1, 1, ascii "k", ascii "x"⟩,
   rfl, by decide, by decide, by decide⟩

/-! ## `get` and `gets` -/

theorem writeKey_eq (opcode : Bytes) (s : simpleCache) (now : Int) (k : Bytes)
    (hop : opcode = ascii "get" ∨ opcode = ascii "gets") :
    retrievalCommand.writeKey opcode s now k
      = match s.Get now k with
        | none => []
        | some e => valueBlock (decide (opcode = ascii "gets")) e := by
  have hne : ascii "get" ≠ ascii "gets" := by decide
  cases hg : s.Get now k with
  | none => simp [retrievalCommand.writeKey, hg]
  | some e =>
    rcases hop with h | h
    · simp [retrievalCommand.writeKey, hg, valueBlock, h, hne]
    · simp [retrievalCommand.writeKey, hg, valueBlock, h, Ne.symm hne]

/-- C20: for every cache state, time and key list, `get` / `gets` writes, for each requested key
in request order that is present and unexpired, the block
`VALUE <key> <flags> <bytes>\r\n<data>\r\n` (for `gets` with ` <cas>` after `<bytes>`), writes
nothing for absent or expired keys, and ends with one `END\r\n`; the command only reads the
cache. In a cache whose entries sit under their own keys `<key>` is the requested key. E.g.
`gets` on a key stored by `set foo 0 E 5` with data `hello`, while it is visible, writes
`VALUE foo 0 5 1\r\nhello\r\nEND\r\n`. -/
theorem retrieval_format_and_order (c : retrievalCommand) (s : simpleCache) (now : Int)
    (hop : c.opcode = ascii "get" ∨ c.opcode = ascii "gets") :
    c.Execute s now = retrievalReply (decide (c.opcode = ascii "gets")) s now c.keys ∧
    (s.keyed → ∀ k e, s.Get now k = some e → e.key = k) ∧
    (∀ (s0 : simpleCache) (E t t' : Int) (nr : Bool),
      t' ≤ (⟨t, 0, E, 5, 1, ascii "foo", ascii "hello"⟩ : cacheEntry).deadline →
      ∃ s1,
        storageCommand.Execute ⟨ascii "set", ascii "foo", 0, E, 5, 0, nr, ascii "hello"⟩ s0 t
          = some (s1, reply nr (ascii "STORED\r\n")) ∧
        retrievalCommand.Execute ⟨ascii "gets", [ascii "foo"]⟩ s1 t'
          = ascii "VALUE foo 0 5 1\r\nhello\r\nEND\r\n") := by
  refine ⟨?_, ?_, ?_⟩
  · simp only [retrievalCommand.Execute, retrievalReply]
    induction c.keys with
    | nil => simp [retrievalCommand.loop]
    | cons k rest ih =>
      simp only [retrievalCommand.loop, ih, writeKey_eq c.opcode s now k hop]
      cases hg : s.Get now k with
      | none => simp [List.filterMap_cons, hg]
      | some e => simp [List.filterMap_cons, hg]
  · intro hk k e hg
    exact keyed_Get s now k e hk hg
  · intro s0 E t t' nr ht
    refine ⟨s0.Set ⟨t, 0, E, 5, 1, ascii "foo", ascii "hello"⟩, ?_, ?_⟩
    · rw [Execute_set _ _ _ rfl]; simp [storageCommand.entry]
    · have hg := Get_of_le_deadline _ t' (ascii "foo") _
        (entries_Set_same s0 ⟨t, 0, E, 5, 1, ascii "foo", ascii "hello"⟩) ht
      simp only [retrievalCommand.Execute, retrievalCommand.loop, retrievalCommand.writeKey, hg]
      decide

/-- C20 at a concrete input: `get a b c` where `b` is absent. -/
theorem retrieval_format_and_order_witness :
    ((⟨ascii "get", [ascii "a", ascii "b", ascii "c"]⟩ : retrievalCommand).opcode = ascii "get" ∨
      (⟨ascii "get", [ascii "a", ascii "b", ascii "c"]⟩ : retrievalCommand).opcode
        = ascii "gets") ∧
    retrievalCommand.Execute ⟨ascii "get", [ascii "a", ascii "b", ascii "c"]⟩
        ((simpleCache.empty.Set ⟨0, 0, 100, 1, 1, ascii "c", ascii "z"⟩).Set
          ⟨0, 0, 100, 1, 1, ascii "a", ascii "x"⟩) 5
      = retrievalReply (decide (ascii "get" = ascii "gets"))
          ((simpleCache.empty.Set ⟨0, 0, 100, 1, 1, ascii "c", ascii "z"⟩).Set
            ⟨0, 0, 100, 1, 1, ascii "a", ascii "x"⟩) 5 [ascii "a", ascii "b", ascii "c"] :=
  ⟨Or.inl rfl,
   (retrieval_format_and_order ⟨ascii "get", [ascii "a", ascii "b", ascii "c"]⟩
      ((simpleCache.empty.Set ⟨0, 0, 100, 1, 1, ascii "c", ascii "z"⟩).Set
        ⟨0, 0, 100, 1, 1, ascii "a", ascii "x"⟩) 5 (Or.inl rfl)).1⟩

/-! ## `noreply` -/

/-- C21: `noreply` only suppresses the reply. For every storage, delete, incr/decr or touch
command, every cache state and every time, the command with `noreply` set writes no bytes
(whatever the outcome: `STORED`, `NOT_STORED`, `EXISTS`, `NOT_FOUND`, `DELETED`, `TOUCHED` or a
numeric value), and the cache afterwards is the one reached by the same command without
`noreply`; a storage command that fails at run time fails with and without `noreply`. -/
theorem noreply_only_suppresses_reply (s : simpleCache) (now : Int) (cs : storageCommand)
    (cd : deleteCommand) (ci : incDecCommand) (ct : touchCommand) :
    storageCommand.Execute { cs with noReply := true } s now
      = (storageCommand.Execute { cs with noReply := false } s now).map (fun r => (r.1, [])) ∧
    deleteCommand.Execute { cd with noReply := true } s
      = ((deleteCommand.Execute { cd with noReply := false } s).1, []) ∧
    incDecCommand.Execute { ci with noReply := true } s now
      = ((incDecCommand.Execute { ci with noReply := false } s now).1, []) ∧
    touchCommand.Execute { ct with noReply := true } s now
      = ((touchCommand.Execute { ct with noReply := false } s now).1, []) := by
  refine ⟨?_, ?_, ?_, ?_⟩
  · simp only [storageCommand.Execute, storageCommand.entry, reply]
    split
    · simp
    · cases s.Get now cs.key with
      | none => simp only []; split_ifs <;> simp
      | some old =>
        simp only []
        split_ifs <;> first | (split <;> simp) | simp
  · simp only [deleteCommand.Execute, reply]
    cases s.Remove cd.key with
    | mk s1 r => cases r <;> simp
  · simp only [incDecCommand.Execute, reply]
    cases s.Get now ci.key with
    | none => simp
    | some e => simp only []; split <;> simp
  · simp only [touchCommand.Execute, reply]
    cases s.Get now ct.key <;> simp

/-! ## Negative expiration times -/

/-- A negative expiration time whose number of nanoseconds fits in an `int64` puts the deadline
before the creation: the entry is expired at every instant from its creation on. -/
theorem Get_negative_expTime (s : simpleCache) (now : Int) (k : Bytes) (e : cacheEntry)
    (h : s.entries k = some e) (h1 : -9223372036 ≤ e.expTime) (h2 : e.expTime < 0)
    (hn : e.creation ≤ now) : s.Get now k = none := by
  rw [Get_of_entries s now k e h]
  have hw : wrapInt (e.expTime * second) = e.expTime * second := by
    apply wrapInt_of_range <;> simp only [second] <;> omega
  have hm : e.expTime ≤ maxOffset := by simp only [maxOffset]; omega
  rw [if_pos hm, hw, if_pos]
  simp only [second]
  omega

/-- C22 (the code at the failing input): the builder accepts the line
`set k 0 -9223372037 1`; executed at time 0 with data `x` it is answered by `STORED\r\n`, and
`Get` returns the entry at its creation time and one second later, when `get k` writes its
`VALUE` block: the product of the exp_time and `time.Second` wraps around to a positive
duration. -/
theorem negative_exptime_wraps :
    storageBuilder [ascii "set", ascii "k", ascii "0", ascii "-9223372037", ascii "1"]
      = .ok ⟨ascii "set", ascii "k", 0, -9223372037, 1, 0, false, []⟩ ∧
    wrapInt (-9223372037 * second) = 9223372036709551616 ∧
    (simpleCache.empty.Set ⟨0, 0, -9223372037, 1, 1, ascii "k", ascii "x"⟩).Get 0 (ascii "k")
      = some ⟨0, 0, -9223372037, 1, 1, ascii "k", ascii "x"⟩ ∧
    (simpleCache.empty.Set ⟨0, 0, -9223372037, 1, 1, ascii "k", ascii "x"⟩).Get 1000000000
      (ascii "k") = some ⟨0, 0, -9223372037, 1, 1, ascii "k", ascii "x"⟩ ∧
    (handleConn simpleCache.empty
      [⟨0, ascii "set k 0 -9223372037 1", ⟨ascii "x\r\n", false, 65536⟩⟩,
       ⟨1000000000, ascii "get k", ⟨[], false, 65536⟩⟩]).map Prod.snd
      = some (ascii "STORED\r\nVALUE k 0 1\r\nx\r\nEND\r\n") :=
  ⟨by decide, by decide, by decide, by decide, by decide⟩

/-! ## Builders: arity and `noreply` -/

theorem storageBuilder_plain_iff (tokens : List Bytes) (op : Bytes)
    (hop : tokens[0]? = some op) (hcas : op ≠ ascii "cas")
    (h2 : readable tokens 2) (h3 : readable tokens 3) (h4 : readable tokens 4) :
    ((∃ c, storageBuilder tokens = .ok c) ↔
      (tokens.length = 5 ∨ (tokens.length = 6 ∧ tokens[5]? = some (ascii "noreply")))) ∧
    (∀ c, storageBuilder tokens = .ok c →
      c.opcode = op ∧ tokens[1]? = some c.key ∧ tokens[2]?.bind Atoi = some c.flags ∧
      tokens[3]?.bind Atoi = some c.expTime ∧ tokens[4]?.bind Atoi = some c.dataSize ∧
      (c.noReply = true ↔ tokens[5]? = some (ascii "noreply"))) := by
  rcases tokens with _ | ⟨t0, _ | ⟨t1, _ | ⟨t2, _ | ⟨t3, _ | ⟨t4, rest⟩⟩⟩⟩⟩
  · simp [storageBuilder]
  · simp [storageBuilder]
  · simp [storageBuilder]
  · simp [storageBuilder]
  · simp [storageBuilder]
  · simp only [List.getElem?_cons_zero, Option.some.injEq] at hop
    subst hop
    obtain ⟨f, hf⟩ := Option.ne_none_iff_exists'.mp (h2 t2 (by simp))
    obtain ⟨e, he⟩ := Option.ne_none_iff_exists'.mp (h3 t3 (by simp))
    obtain ⟨d, hd⟩ := Option.ne_none_iff_exists'.mp (h4 t4 (by simp))
    rcases rest with _ | ⟨t5, _ | ⟨t6, rest⟩⟩
    · simp [storageBuilder, hf, he, hd, hcas]
    · by_cases hn : t5 = ascii "noreply"
      · simp [storageBuilder, hf, he, hd, hcas, hn]
      · simp [storageBuilder, hf, he, hd, hcas, hn]
    · simp [storageBuilder, hf, he, hd, hcas]

theorem storageBuilder_cas_iff (tokens : List Bytes)
    (hop : tokens[0]? = some (ascii "cas"))
    (h2 : readable tokens 2) (h3 : readable tokens 3) (h4 : readable tokens 4)
    (h5 : readable tokens 5) :
    ((∃ c, storageBuilder tokens = .ok c) ↔
      (tokens.length = 6 ∨ (tokens.length = 7 ∧ tokens[6]? = some (ascii "noreply")))) ∧
    (∀ c, storageBuilder tokens = .ok c →
      c.opcode = ascii "cas" ∧ tokens[1]? = some c.key ∧ tokens[2]?.bind Atoi = some c.flags ∧
      tokens[3]?.bind Atoi = some c.expTime ∧ tokens[4]?.bind Atoi = some c.dataSize ∧
      tokens[5]?.bind Atoi = some c.casUnique ∧
      (c.noReply = true ↔ tokens[6]? = some (ascii "noreply"))) := by
  rcases tokens with _ | ⟨t0, _ | ⟨t1, _ | ⟨t2, _ | ⟨t3, _ | ⟨t4, rest⟩⟩⟩⟩⟩
  · simp [storageBuilder]
  · simp [storageBuilder]
  · simp [storageBuilder]
  · simp [storageBuilder]
  · simp [storageBuilder]
  · simp only [List.getElem?_cons_zero, Option.some.injEq] at hop
    subst hop
    obtain ⟨f, hf⟩ := Option.ne_none_iff_exists'.mp (h2 t2 (by simp))
    obtain ⟨e, he⟩ := Option.ne_none_iff_exists'.mp (h3 t3 (by simp))
    obtain ⟨d, hd⟩ := Option.ne_none_iff_exists'.mp (h4 t4 (by simp))
    rcases rest with _ | ⟨t5, rest⟩
    · simp [storageBuilder, hf, he, hd]
    · obtain ⟨u, hu⟩ := Option.ne_none_iff_exists'.mp (h5 t5 (by simp))
      rcases rest with _ | ⟨t6, _ | ⟨t7, rest⟩⟩
      · simp [storageBuilder, hf, he, hd, hu]
      · by_cases hn : t6 = ascii "noreply"
        · simp [storageBuilder, hf, he, hd, hu, hn]
        · simp [storageBuilder, hf, he, hd, hu, hn]
      · simp [storageBuilder, hf, he, hd, hu]

theorem deleteBuilder_iff (tokens : List Bytes) :
    ((∃ c, deleteBuilder tokens = .ok c) ↔
      (tokens.length = 2 ∨ (tokens.length = 3 ∧ tokens[2]? = some (ascii "noreply")))) ∧
    (∀ c, deleteBuilder tokens = .ok c →
      tokens[0]? = some c.opcode ∧ tokens[1]? = some c.key ∧
      (c.noReply = true ↔ tokens[2]? = some (ascii "noreply"))) := by
  rcases tokens with _ | ⟨t0, _ | ⟨t1, _ | ⟨t2, _ | ⟨t3, rest⟩⟩⟩⟩
  · simp [deleteBuilder]
  · simp [deleteBuilder]
  · simp [deleteBuilder]
  · by_cases hn : t2 = ascii "noreply"
    · simp [deleteBuilder, hn]
    · simp [deleteBuilder, hn]
  · simp [deleteBuilder]

theorem incDecBuilder_iff (tokens : List Bytes) (h2 : readable tokens 2) :
    ((∃ c, incDecBuilder tokens = .ok c) ↔
      (tokens.length = 3 ∨ (tokens.length = 4 ∧ tokens[3]? = some (ascii "noreply")))) ∧
    (∀ c, incDecBuilder tokens = .ok c →
      tokens[0]? = some c.opcode ∧ tokens[1]? = some c.key ∧
      tokens[2]?.bind Atoi = some c.value ∧
      (c.noReply = true ↔ tokens[3]? = some (ascii "noreply"))) := by
  rcases tokens with _ | ⟨t0, _ | ⟨t1, _ | ⟨t2, rest⟩⟩⟩
  · simp [incDecBuilder]
  · simp [incDecBuilder]
  · simp [incDecBuilder]
  · obtain ⟨v, hv⟩ := Option.ne_none_iff_exists'.mp (h2 t2 (by simp))
    rcases rest with _ | ⟨t3, _ | ⟨t4, rest⟩⟩
    · simp [incDecBuilder, hv]
    · by_cases hn : t3 = ascii "noreply"
      · simp [incDecBuilder, hv, hn]
      · simp [incDecBuilder, hv, hn]
    · simp [incDecBuilder, hv]

theorem touchBuilder_iff (tokens : List Bytes) (h2 : readable tokens 2) :
    ((∃ c, touchBuilder tokens = .ok c) ↔
      (tokens.length = 3 ∨ (tokens.length = 4 ∧ tokens[3]? = some (ascii "noreply")))) ∧
    (∀ c, touchBuilder tokens = .ok c →
      tokens[0]? = some c.opcode ∧ tokens[1]? = some c.key ∧
      tokens[2]?.bind Atoi = some c.expTime ∧
      (c.noReply = true ↔ tokens[3]? = some (ascii "noreply"))) := by
  rcases tokens with _ | ⟨t0, _ | ⟨t1, _ | ⟨t2, rest⟩⟩⟩
  · simp [touchBuilder]
  · simp [touchBuilder]
  · simp [touchBuilder]
  · obtain ⟨v, hv⟩ := Option.ne_none_iff_exists'.mp (h2 t2 (by simp))
    rcases rest with _ | ⟨t3, _ | ⟨t4, rest⟩⟩
    · simp [touchBuilder, hv]
    · by_cases hn : t3 = ascii "noreply"
      · simp [touchBuilder, hv, hn]
      · simp [touchBuilder, hv, hn]
    · simp [touchBuilder, hv]

/-- C23: builders enforce arity and the position of `noreply`. For every token list with
opcode `op` whose numeric tokens are well formed (read by `strconv.Atoi`), the builder that
the table gives for `set`/`add`/`replace`/`append`/`prepend` succeeds iff there are exactly 5
tokens, or 6 with the sixth exactly `noreply`; for `cas` iff exactly 6, or 7 with the seventh
exactly `noreply`; for `delete` iff exactly 2, or 3 with the third exactly `noreply`; for
`incr`/`decr` and `touch` iff exactly 3, or 4 with the fourth exactly `noreply`. So any
surplus token yields an error; and on success the record's `noReply` is true exactly when the
`noreply` token is present, and its key and numeric fields are the values of the
corresponding tokens. -/
theorem builders_enforce_arity (tokens : List Bytes) (op : Bytes)
    (hop : tokens[0]? = some op) :
    ((op = ascii "set" ∨ op = ascii "add" ∨ op = ascii "replace" ∨ op = ascii "append"
        ∨ op = ascii "prepend") →
      readable tokens 2 → readable tokens 3 → readable tokens 4 →
      (∃ b, builders op = some b ∧
        b tokens = some ((storageBuilder tokens).toCommand Command.storage)) ∧
      ((∃ c, storageBuilder tokens = .ok c) ↔
        (tokens.length = 5 ∨ (tokens.length = 6 ∧ tokens[5]? = some (ascii "noreply")))) ∧
      (∀ c, storageBuilder tokens = .ok c →
        c.opcode = op ∧ tokens[1]? = some c.key ∧ tokens[2]?.bind Atoi = some c.flags ∧
        tokens[3]?.bind Atoi = some c.expTime ∧ tokens[4]?.bind Atoi = some c.dataSize ∧
        (c.noReply = true ↔ tokens[5]? = some (ascii "noreply")))) ∧
    (op = ascii "cas" →
      readable tokens 2 → readable tokens 3 → readable tokens 4 → readable tokens 5 →
      (∃ b, builders op = some b ∧
        b tokens = some ((storageBuilder tokens).toCommand Command.storage)) ∧
      ((∃ c, storageBuilder tokens = .ok c) ↔
        (tokens.length = 6 ∨ (tokens.length = 7 ∧ tokens[6]? = some (ascii "noreply")))) ∧
      (∀ c, storageBuilder tokens = .ok c →
        c.opcode = ascii "cas" ∧ tokens[1]? = some c.key ∧
        tokens[2]?.bind Atoi = some c.flags ∧ tokens[3]?.bind Atoi = some c.expTime ∧
        tokens[4]?.bind Atoi = some c.dataSize ∧ tokens[5]?.bind Atoi = some c.casUnique ∧
        (c.noReply = true ↔ tokens[6]? = some (ascii "noreply")))) ∧
    (op = ascii "delete" →
      (∃ b, builders op = some b ∧
        b tokens = some ((deleteBuilder tokens).toCommand Command.delete)) ∧
      ((∃ c, deleteBuilder tokens = .ok c) ↔
        (tokens.length = 2 ∨ (tokens.length = 3 ∧ tokens[2]? = some (ascii "noreply")))) ∧
      (∀ c, deleteBuilder tokens = .ok c →
        tokens[0]? = some c.opcode ∧ tokens[1]? = some c.key ∧
        (c.noReply = true ↔ tokens[2]? = some (ascii "noreply")))) ∧
    ((op = ascii "incr" ∨ op = ascii "decr") → readable tokens 2 →
      (∃ b, builders op = some b ∧
        b tokens = some ((incDecBuilder tokens).toCommand Command.incDec)) ∧
      ((∃ c, incDecBuilder tokens = .ok c) ↔
        (tokens.length = 3 ∨ (tokens.length = 4 ∧ tokens[3]? = some (ascii "noreply")))) ∧
      (∀ c, incDecBuilder tokens = .ok c →
        tokens[0]? = some c.opcode ∧ tokens[1]? = some c.key ∧
        tokens[2]?.bind Atoi = some c.value ∧
        (c.noReply = true ↔ tokens[3]? = some (ascii "noreply")))) ∧
    (op = ascii "touch" → readable tokens 2 →
      (∃ b, builders op = some b ∧
        b tokens = some ((touchBuilder tokens).toCommand Command.touch)) ∧
      ((∃ c, touchBuilder tokens = .ok c) ↔
        (tokens.length = 3 ∨ (tokens.length = 4 ∧ tokens[3]? = some (ascii "noreply")))) ∧
      (∀ c, touchBuilder tokens = .ok c →
        tokens[0]? = some c.opcode ∧ tokens[1]? = some c.key ∧
        tokens[2]?.bind Atoi = some c.expTime ∧
        (c.noReply = true ↔ tokens[3]? = some (ascii "noreply")))) := by
  refine ⟨?_, ?_, ?_, ?_, ?_⟩
  · intro h5 h2 h3 h4
    have hcas : op ≠ ascii "cas" := by
      rcases h5 with h | h | h | h | h <;> rw [h] <;> decide
    refine ⟨?_, storageBuilder_plain_iff tokens op hop hcas h2 h3 h4⟩
    rcases h5 with h | h | h | h | h <;> subst h <;> exact ⟨_, rfl, rfl⟩
  · intro h h2 h3 h4 h5
    subst h
    exact ⟨⟨_, rfl, rfl⟩, storageBuilder_cas_iff tokens hop h2 h3 h4 h5⟩
  · intro h
    subst h
    exact ⟨⟨_, rfl, rfl⟩, deleteBuilder_iff tokens⟩
  · intro h h2
    refine ⟨?_, incDecBuilder_iff tokens h2⟩
    rcases h with h | h <;> subst h <;> exact ⟨_, rfl, rfl⟩
  · intro h h2
    subst h
    exact ⟨⟨_, rfl, rfl⟩, touchBuilder_iff tokens h2⟩

/-- C23 at a concrete input: the tokens of `set k 0 0 1 noreply`. -/
theorem builders_enforce_arity_witness :
    [ascii "set", ascii "k", ascii "0", ascii "0", ascii "1", ascii "noreply"][0]?
      = some (ascii "set") ∧
    ((∃ c, storageBuilder
        [ascii "set", ascii "k", ascii "0", ascii "0", ascii "1", ascii "noreply"] = .ok c) ↔
      ([ascii "set", ascii "k", ascii "0", ascii "0", ascii "1", ascii "noreply"].length = 5 ∨
        ([ascii "set", ascii "k", ascii "0", ascii "0", ascii "1", ascii "noreply"].length = 6 ∧
          [ascii "set", ascii "k", ascii "0", ascii "0", ascii "1", ascii "noreply"][5]?
            = some (ascii "noreply")))) :=
  ⟨rfl,
   ((builders_enforce_arity
      [ascii "set", ascii "k", ascii "0", ascii "0", ascii "1", ascii "noreply"] (ascii "set")
      rfl).1 (Or.inl rfl)
      (by intro t h; simp at h; subst h; decide)
      (by intro t h; simp at h; subst h; decide)
      (by intro t h; simp at h; subst h; decide)).2.1⟩

/-! ## Builders: numeric tokens -/

theorem parseDigits_some_iff (body : Bytes) : ∀ acc : Nat,
    (∃ n, parseDigits body acc = some n) ↔ ∀ b ∈ body, isDigit b := by
  induction body with
  | nil => intro acc; simp [parseDigits]
  | cons x xs ih =>
    intro acc
    by_cases hx : 48 ≤ x.toNat ∧ x.toNat ≤ 57
    · simp [parseDigits, hx, ih, isDigit]
    · simp [parseDigits, hx, isDigit]

theorem digit_not_sign (b : UInt8) (h : isDigit b) : b ≠ 45 ∧ b ≠ 43 := by
  constructor <;> (intro hb; rw [hb] at h; unfold isDigit at h; revert h; decide)

/-- Every numeral that `strconv.Atoi` reads is a run of decimal digits after at most one
leading sign. -/
theorem Atoi_shape (t : Bytes) (h : Atoi t ≠ none) :
    ∃ body, body ≠ [] ∧ (∀ b ∈ body, isDigit b) ∧
      (t = body ∨ t = 45 :: body ∨ t = 43 :: body) := by
  cases t with
  | nil => simp [Atoi] at h
  | cons ch rest =>
    by_cases h45 : ch = 45
    · subst h45
      cases rest with
      | nil => simp [Atoi] at h
      | cons r rs =>
        cases hp : parseDigits (r :: rs) 0 with
        | none => simp [Atoi, hp] at h
        | some n =>
          exact ⟨r :: rs, by simp, (parseDigits_some_iff _ 0).mp ⟨n, hp⟩, Or.inr (Or.inl rfl)⟩
    · by_cases h43 : ch = 43
      · subst h43
        cases rest with
        | nil => simp [Atoi] at h
        | cons r rs =>
          cases hp : parseDigits (r :: rs) 0 with
          | none => simp [Atoi, hp] at h
          | some n =>
            exact ⟨r :: rs, by simp, (parseDigits_some_iff _ 0).mp ⟨n, hp⟩, Or.inr (Or.inr rfl)⟩
      · cases hp : parseDigits (ch :: rest) 0 with
        | none => simp [Atoi, h45, h43, hp] at h
        | some n =>
          exact ⟨ch :: rest, by simp, (parseDigits_some_iff _ 0).mp ⟨n, hp⟩, Or.inl rfl⟩

/-- A run of digits is read with and without a leading sign. -/
theorem Atoi_signed (body : Bytes) (n : Nat) (hne : body ≠ [])
    (hp : parseDigits body 0 = some n) (hn : (n : Int) ≤ maxInt) :
    Atoi body = some (n : Int) ∧ Atoi (43 :: body) = some (n : Int) ∧
      Atoi (45 :: body) = some (-(n : Int)) := by
  have hle : n ≤ 9223372036854775807 := by simp only [maxInt] at hn; omega
  cases body with
  | nil => exact absurd rfl hne
  | cons ch rest =>
    have hd : isDigit ch := (parseDigits_some_iff _ 0).mp ⟨n, hp⟩ ch (by simp)
    obtain ⟨h45, h43⟩ := digit_not_sign ch hd
    refine ⟨?_, ?_, ?_⟩
    · simp [Atoi, h45, h43, hp, hle]
    · simp [Atoi, hp, hle]
    · simp [Atoi, hp]
      omega

/-- C24 (counterexample): the builders accept numeric tokens with a leading sign: flags `-1`,
exp_time `+2`, bytes `+3` and cas-unique `-4` on a `cas` line, bytes `-3` on a `set` line, the
values `-5` and `+5` of `incr` / `decr`, and the exp_time `+5` of `touch`. -/
theorem signed_tokens_counterexample :
    storageBuilder [ascii "cas", ascii "k", ascii "-1", ascii "+2", ascii "+3", ascii "-4"]
      = .ok ⟨ascii "cas", ascii "k", -1, 2, 3, -4, false, []⟩ ∧
    storageBuilder [ascii "set", ascii "k", ascii "0", ascii "0", ascii "-3"]
      = .ok ⟨ascii "set", ascii "k", 0, 0, -3, 0, false, []⟩ ∧
    incDecBuilder [ascii "incr", ascii "k", ascii "-5"] = .ok ⟨ascii "incr", ascii "k", -5, false⟩ ∧
    incDecBuilder [ascii "decr", ascii "k", ascii "+5"] = .ok ⟨ascii "decr", ascii "k", 5, false⟩ ∧
    touchBuilder [ascii "touch", ascii "k", ascii "+5"] = .ok ⟨ascii "touch", ascii "k", 5, false⟩ :=
  ⟨by decide, by decide, by decide, by decide, by decide⟩

/-- C24 (amended): numeric tokens are signed decimal. For every command line the builders
reject a flags, exp_time, bytes, cas-unique, incr/decr value or touch exp_time token that
`strconv.Atoi` does not read; what it reads is a non-empty run of decimal digits after at most
one leading sign, so a token with any other byte or without a digit is rejected; and on every
numeric token a leading `-` or `+` before digits is accepted, the field being the signed value
(within the `int` range). -/
theorem numeric_tokens_signed (tokens : List Bytes) :
    (∀ i t, tokens[i]? = some t → Atoi t = none →
      ((i = 2 ∨ i = 3 ∨ i = 4) → ∀ c, storageBuilder tokens ≠ .ok c) ∧
      (i = 5 → tokens[0]? = some (ascii "cas") → ∀ c, storageBuilder tokens ≠ .ok c) ∧
      (i = 2 → (∀ c, incDecBuilder tokens ≠ .ok c) ∧ (∀ c, touchBuilder tokens ≠ .ok c))) ∧
    (∀ t, Atoi t ≠ none →
      ∃ body, body ≠ [] ∧ (∀ b ∈ body, isDigit b) ∧
        (t = body ∨ t = 45 :: body ∨ t = 43 :: body)) ∧
    (∀ (body : Bytes) (n : Nat), body ≠ [] → parseDigits body 0 = some n → (n : Int) ≤ maxInt →
      Atoi body = some (n : Int) ∧ Atoi (43 :: body) = some (n : Int) ∧
        Atoi (45 :: body) = some (-(n : Int))) ∧
    (∀ (t0 t1 t2 t3 t4 t5 : Bytes) (f e d u : Int),
      Atoi t2 = some f → Atoi t3 = some e → Atoi t4 = some d → Atoi t5 = some u →
      (t0 ≠ ascii "cas" →
        storageBuilder [t0, t1, t2, t3, t4] = .ok ⟨t0, t1, f, e, d, 0, false, []⟩) ∧
      storageBuilder [ascii "cas", t1, t2, t3, t4, t5]
        = .ok ⟨ascii "cas", t1, f, e, d, u, false, []⟩ ∧
      incDecBuilder [t0, t1, t2] = .ok ⟨t0, t1, f, false⟩ ∧
      touchBuilder [t0, t1, t3] = .ok ⟨t0, t1, e, false⟩) := by
  refine ⟨?_, Atoi_shape, Atoi_signed, ?_⟩
  · intro i t ht ha
    refine ⟨?_, ?_, ?_⟩
    · intro hi c
      rcases tokens with _ | ⟨t0, _ | ⟨t1, _ | ⟨t2, _ | ⟨t3, _ | ⟨t4, rest⟩⟩⟩⟩⟩ <;>
        try (simp [storageBuilder]; done)
      rcases hi with h | h | h <;> subst h <;> simp at ht <;> subst ht
      · simp [storageBuilder, ha]
      · cases h2 : Atoi t2 <;> simp [storageBuilder, ha, h2]
      · cases h2 : Atoi t2 <;> cases h3 : Atoi t3 <;> simp [storageBuilder, ha, h2, h3]
    · intro hi hop c
      subst hi
      rcases tokens with _ | ⟨t0, _ | ⟨t1, _ | ⟨t2, _ | ⟨t3, _ | ⟨t4, _ | ⟨t5, rest⟩⟩⟩⟩⟩⟩ <;>
        try (simp at ht; done)
      simp at ht hop
      subst ht hop
      cases h2 : Atoi t2 <;> cases h3 : Atoi t3 <;> cases h4 : Atoi t4 <;>
        simp [storageBuilder, ha, h2, h3, h4]
    · intro hi
      subst hi
      rcases tokens with _ | ⟨t0, _ | ⟨t1, _ | ⟨t2, rest⟩⟩⟩ <;> try (simp at ht; done)
      simp at ht
      subst ht
      constructor <;> intro c <;> simp [incDecBuilder, touchBuilder, ha]
  · intro t0 t1 t2 t3 t4 t5 f e d u h2 h3 h4 h5
    refine ⟨?_, ?_, ?_, ?_⟩
    · intro h0; simp [storageBuilder, h2, h3, h4, h0]
    · simp [storageBuilder, h2, h3, h4, h5]
    · simp [incDecBuilder, h2]
    · simp [touchBuilder, h3]

/-- C24 (amended) at a concrete input: the digits `12` with and without a sign. -/
theorem numeric_tokens_signed_witness :
    (ascii "12" ≠ [] ∧ parseDigits (ascii "12") 0 = some 12 ∧ ((12 : Nat) : Int) ≤ maxInt) ∧
    (Atoi (ascii "12") = some ((12 : Nat) : Int) ∧ Atoi (43 :: ascii "12") = some ((12 : Nat) : Int) ∧
      Atoi (45 :: ascii "12") = some (-((12 : Nat) : Int))) :=
  ⟨⟨by decide, by decide, by decide⟩,
   (numeric_tokens_signed []).2.2.1 (ascii "12") 12 (by decide) (by decide) (by decide)⟩

/-! ## The connection handler -/

theorem ERROR_ne_CLIENT_ERROR (text : Bytes) :
    ascii "ERROR\r\n" ≠ ascii "CLIENT_ERROR " ++ text ++ ascii "\r\n" := by
  intro h
  have h1 : ascii "CLIENT_ERROR " = 67 :: ascii "LIENT_ERROR " := by decide
  have h2 : ascii "ERROR\r\n" = 69 :: ascii "RROR\r\n" := by decide
  rw [h1, h2] at h
  simp only [List.cons_append, List.cons.injEq] at h
  exact absurd h.1 (by decide)

/-- C25 (counterexample): the opcode `incr` is in the table and its builder rejects the line
`incr k abc` (unparseable integer), and the handler writes `ERROR\r\n`, which is no
`CLIENT_ERROR <text>\r\n`; the same for the wrong arity of `set k 0 0`; and the handler writes
`ERROR\r\n` for the line `get`, whose opcode is one of the twelve. -/
theorem handler_error_counterexample :
    (builders (ascii "incr")).isSome = true ∧
    incDecBuilder (bytesSplit (ascii "incr k abc")) = .err "Invalid value" ∧
    (handleLine simpleCache.empty 0 (ascii "incr k abc") ⟨[], false, 65536⟩).map Prod.snd
      = some (ascii "ERROR\r\n") ∧
    (∀ text, ascii "ERROR\r\n" ≠ ascii "CLIENT_ERROR " ++ text ++ ascii "\r\n") ∧
    storageBuilder (bytesSplit (ascii "set k 0 0"))
      = .err "Insufficient tokens to build storageCommand" ∧
    (handleLine simpleCache.empty 0 (ascii "set k 0 0") ⟨[], false, 65536⟩).map Prod.snd
      = some (ascii "ERROR\r\n") ∧
    (builders (ascii "get")).isSome = true ∧
    (handleLine simpleCache.empty 0 (ascii "get") ⟨[], false, 65536⟩).map Prod.snd
      = some (ascii "ERROR\r\n") :=
  ⟨by decide, by decide, by decide, ERROR_ne_CLIENT_ERROR, by decide, by decide, by decide,
   by decide⟩

theorem builders_twelve (op : Bytes) :
    builders op ≠ none ↔
      (op = ascii "set" ∨ op = ascii "add" ∨ op = ascii "replace" ∨ op = ascii "append"
        ∨ op = ascii "prepend" ∨ op = ascii "cas" ∨ op = ascii "get" ∨ op = ascii "gets"
        ∨ op = ascii "delete" ∨ op = ascii "incr" ∨ op = ascii "decr" ∨ op = ascii "touch") := by
  unfold builders
  split_ifs with h1 h2 h3 h4 h5 <;> simp <;> tauto

/-- C25 (amended): there is one error reply. For every command line the handler writes
`ERROR\r\n` when the line has fewer than two tokens, when the opcode (first token) is not one
of the twelve opcodes of the table, and also when the opcode is recognised but its builder
rejects the line (wrong arity, unparseable integer, misplaced `noreply`); in these cases the
cache is unchanged and the handler continues with the next line. -/
theorem handler_writes_ERROR (s : simpleCache) (now : Int) (line : Bytes) (rd : ReadResult)
    (herr : (bytesSplit line).length < 2 ∨
      builders ((bytesSplit line).headD []) = none ∨
      ∃ b msg, builders ((bytesSplit line).headD []) = some b ∧
        b (bytesSplit line) = some (.err msg)) :
    handleLine s now line rd = some (s, ascii "ERROR\r\n") ∧
    (∀ rest, handleConn s (⟨now, line, rd⟩ :: rest)
      = (handleConn s rest).map (fun r => (r.1, ascii "ERROR\r\n" ++ r.2))) ∧
    (∀ op, builders op ≠ none ↔
      (op = ascii "set" ∨ op = ascii "add" ∨ op = ascii "replace" ∨ op = ascii "append"
        ∨ op = ascii "prepend" ∨ op = ascii "cas" ∨ op = ascii "get" ∨ op = ascii "gets"
        ∨ op = ascii "delete" ∨ op = ascii "incr" ∨ op = ascii "decr"
        ∨ op = ascii "touch")) := by
  have h : handleLine s now line rd = some (s, ascii "ERROR\r\n") := by
    unfold handleLine
    rcases herr with h | h | ⟨b, msg, hb, hm⟩
    · simp [h]
    · simp only [h]; split_ifs <;> rfl
    · simp only [hb, hm]; split_ifs <;> rfl
  refine ⟨h, ?_, builders_twelve⟩
  intro rest
  simp only [handleConn, h]
  cases handleConn s rest with
  | none => rfl
  | some r => rfl

/-- C25 (amended) at a concrete input: the line `incr k abc`. -/
theorem handler_writes_ERROR_witness :
    ((bytesSplit (ascii "incr k abc")).length < 2 ∨
      builders ((bytesSplit (ascii "incr k abc")).headD []) = none ∨
      ∃ b msg, builders ((bytesSplit (ascii "incr k abc")).headD []) = some b ∧
        b (bytesSplit (ascii "incr k abc")) = some (.err msg)) ∧
    handleLine simpleCache.empty 0 (ascii "incr k abc") ⟨[], false, 65536⟩
      = some (simpleCache.empty, ascii "ERROR\r\n") :=
  ⟨Or.inr (Or.inr ⟨_, _, rfl, rfl⟩),
   (handler_writes_ERROR simpleCache.empty 0 (ascii "incr k abc") ⟨[], false, 65536⟩
      (Or.inr (Or.inr ⟨_, _, rfl, rfl⟩))).1⟩

theorem handleLine_storage (s : simpleCache) (now : Int) (line : Bytes) (rd : ReadResult)
    (b : List Bytes → Option (Built Command)) (sc : storageCommand)
    (hlen : 2 ≤ (bytesSplit line).length)
    (hb : builders ((bytesSplit line).headD []) = some b)
    (hacc : b (bytesSplit line) = some (.ok (.storage sc))) :
    handleLine s now line rd =
      match readData sc.dataSize rd with
      | none => none
      | some none => some (s, ascii "ERROR\r\n")
      | some (some data) => storageCommand.Execute { sc with data := data } s now := by
  unfold handleLine
  simp only [hb, hacc, if_neg (by omega : ¬ (bytesSplit line).length < 2)]
  rfl

/-- When the buffer of `dataSize + 2` bytes can be allocated and the reader supplies the whole
block `B` of that many bytes, the buffer holds `B` and the data assigned is `B` without its
last two bytes, provided these are `\r\n`. -/
theorem readData_full (n : Int) (B more : Bytes) (heap : Nat) (h0 : 0 ≤ n)
    (hB : (B.length : Int) = n + 2) (hgo : (B.length : Int) ≤ maxAlloc)
    (hheap : B.length ≤ heap) :
    readData n ⟨B ++ more, false, heap⟩ =
      if B.drop n.toNat = ascii "\r\n" then some (some (B.take n.toNat)) else some none := by
  have hw : wrapInt (n + 2) = ((B.length : Nat) : Int) := by
    rw [wrapInt_of_range] <;> simp only [maxAlloc] at hgo <;> omega
  have hn : B.length - 2 = n.toNat := by omega
  have hcopy : goCopy (List.replicate B.length (0 : UInt8)) (B ++ more) = B := by
    simp [goCopy, List.take_append_of_le_length]
  unfold readData
  simp only [hw, Int.toNat_ofNat, hcopy, hn]
  rw [if_neg (by omega)]
  simp only [Bool.false_eq_true, if_false, List.length_append]
  rw [if_neg (by omega), if_neg (by omega)]
  by_cases hd : List.drop n.toNat B = ascii "\r\n" <;> simp [hd]

theorem readData_short (n : Int) (rd : ReadResult) (h0 : 0 ≤ n) (hgo : n + 2 ≤ maxAlloc)
    (hheap : n + 2 ≤ rd.heap)
    (h : rd.err = true ∨ (rd.avail.length : Int) < n + 2) :
    readData n rd = some none := by
  have hw : wrapInt (n + 2) = n + 2 := by
    rw [wrapInt_of_range] <;> simp only [maxAlloc] at hgo <;> omega
  obtain ⟨avail, err, heap⟩ := rd
  unfold readData
  simp only [hw]
  rw [if_neg (by simp only at hheap; omega)]
  cases err with
  | true => simp
  | false =>
    have hl : (avail.length : Int) < n + 2 := by simpa using h
    have hlt : ((min avail.length (n + 2).toNat : Nat) : Int) < n + 2 := by omega
    simp only [Bool.false_eq_true, if_false, if_pos hlt]

/-- C26: data block framing. For every accepted storage command line with `data_size`
`n ≥ 0` and every block `B` of `n + 2` bytes, when the buffer of `n + 2` bytes can be
allocated (`n + 2` is at most `maxAlloc` and at most what the heap can supply): if the reader
supplies `B` and its last two bytes are `\r\n`, the command is executed with data equal to
the first `n` bytes of `B`, whatever they are; if the last two bytes are not `\r\n`, or the
read fails or yields fewer than `n + 2` bytes, the command is not executed, `ERROR\r\n` is
written and the cache is unchanged. -/
theorem data_block_framing (s : simpleCache) (now : Int) (line : Bytes) (rd : ReadResult)
    (b : List Bytes → Option (Built Command)) (sc : storageCommand) (B : Bytes)
    (hlen : 2 ≤ (bytesSplit line).length)
    (hb : builders ((bytesSplit line).headD []) = some b)
    (hacc : b (bytesSplit line) = some (.ok (.storage sc)))
    (h0 : 0 ≤ sc.dataSize) (hB : (B.length : Int) = sc.dataSize + 2)
    (hgo : (B.length : Int) ≤ maxAlloc) (hheap : B.length ≤ rd.heap) :
    (∀ more, rd.avail = B ++ more → rd.err = false →
      B.drop sc.dataSize.toNat = ascii "\r\n" →
      handleLine s now line rd
        = storageCommand.Execute { sc with data := B.take sc.dataSize.toNat } s now) ∧
    (∀ more, rd.avail = B ++ more → rd.err = false →
      B.drop sc.dataSize.toNat ≠ ascii "\r\n" →
      handleLine s now line rd = some (s, ascii "ERROR\r\n")) ∧
    (rd.err = true ∨ rd.avail.length < B.length →
      handleLine s now line rd = some (s, ascii "ERROR\r\n")) := by
  rw [handleLine_storage s now line rd b sc hlen hb hacc]
  refine ⟨?_, ?_, ?_⟩
  · intro more hav herr hend
    obtain ⟨avail, err, heap⟩ := rd
    simp only at hav herr hheap
    rw [hav, herr, readData_full sc.dataSize B more heap h0 hB hgo hheap, if_pos hend]
  · intro more hav herr hend
    obtain ⟨avail, err, heap⟩ := rd
    simp only at hav herr hheap
    rw [hav, herr, readData_full sc.dataSize B more heap h0 hB hgo hheap, if_neg hend]
  · intro h
    rw [readData_short sc.dataSize rd h0 (by omega) (by omega) (by
      rcases h with h | h
      · exact Or.inl h
      · exact Or.inr (by omega))]

/-- C26 at a concrete input: `set k 0 100 3` followed by the block `a\r\n\r\n`, whose data
bytes are `a`, `\r`, `\n`. -/
theorem data_block_framing_witness :
    (2 ≤ (bytesSplit (ascii "set k 0 100 3")).length ∧
      (0 : Int) ≤ 3 ∧ ((ascii "a\r\n\r\n").length : Int) = 3 + 2 ∧
      ((ascii "a\r\n\r\n").length : Int) ≤ maxAlloc ∧ (ascii "a\r\n\r\n").length ≤ 65536 ∧
      (ascii "a\r\n\r\n").drop (3 : Int).toNat = ascii "\r\n") ∧
    handleLine simpleCache.empty 7 (ascii "set k 0 100 3") ⟨ascii "a\r\n\r\n" ++ [], false, 65536⟩
      = storageCommand.Execute ⟨ascii "set", ascii "k", 0, 100, 3, 0, false,
          (ascii "a\r\n\r\n").take (3 : Int).toNat⟩ simpleCache.empty 7 :=
  ⟨⟨by decide, by decide, by decide, by decide, by decide, by decide⟩,
   (data_block_framing simpleCache.empty 7 (ascii "set k 0 100 3")
      ⟨ascii "a\r\n\r\n" ++ [], false, 65536⟩ _ ⟨ascii "set", ascii "k", 0, 100, 3, 0, false, []⟩
      (ascii "a\r\n\r\n") (by decide) rfl rfl (by decide) (by decide) (by decide)
      (by decide)).1 [] rfl rfl (by decide)⟩

/-! ## Keys -/

theorem bytesSplit_no_space (line : Bytes) : ∀ t ∈ bytesSplit line, (32 : UInt8) ∉ t := by
  induction line with
  | nil => intro t ht; simp [bytesSplit] at ht; subst ht; simp
  | cons b rest ih =>
    intro t ht
    by_cases hb : b = 32
    · simp [bytesSplit, hb] at ht
      rcases ht with h | h
      · subst h; simp
      · exact ih t h
    · simp only [bytesSplit, if_neg hb] at ht
      cases hs : bytesSplit rest with
      | nil =>
        rw [hs] at ht
        simp at ht
        subst ht
        simp [Ne.symm hb]
      | cons t1 ts =>
        rw [hs] at ht ih
        simp at ht
        rcases ht with h | h
        · subst h
          have := ih t1 (by simp)
          simp [Ne.symm hb, this]
        · exact ih t (by simp [h])

set_option maxRecDepth 8000 in
/-- C27 (counterexample): the builders accept the empty key (`delete ` is answered by
`NOT_FOUND\r\n`, not by an error), a key of 251 bytes and a key that is the control byte
0x01, which `set` stores in the cache. -/
theorem key_not_validated_counterexample :
    deleteBuilder (bytesSplit (ascii "delete ")) = .ok ⟨ascii "delete", [], false⟩ ∧
    (handleLine simpleCache.empty 0 (ascii "delete ") ⟨[], false, 65536⟩).map Prod.snd
      = some (ascii "NOT_FOUND\r\n") ∧
    (List.replicate 251 (97 : UInt8)).length = 251 ∧
    storageBuilder [ascii "set", List.replicate 251 97, ascii "0", ascii "100", ascii "1"]
      = .ok ⟨ascii "set", List.replicate 251 97, 0, 100, 1, 0, false, []⟩ ∧
    retrievalBuilder [ascii "get", [1]] = some (.ok ⟨ascii "get", [[1]]⟩) ∧
    (handleLine simpleCache.empty 0 (ascii "set " ++ [1] ++ ascii " 0 100 1")
      ⟨ascii "x\r\n", false, 65536⟩).map Prod.snd = some (ascii "STORED\r\n") ∧
    ((handleLine simpleCache.empty 0 (ascii "set " ++ [1] ++ ascii " 0 100 1")
      ⟨ascii "x\r\n", false, 65536⟩).bind (fun r => r.1.entries [1]))
      = some ⟨0, 0, 100, 1, 1, [1], ascii "x"⟩ :=
  ⟨by decide, by decide, by decide, by decide, by decide, by decide, by decide⟩

/-- C27 (amended): builders do not validate the key. For every byte string `key` given as the
key token (numeric tokens being well formed), each builder succeeds and the record's key is
`key` unchanged, so a key may be empty, longer than 250 bytes or contain control bytes; the
only restriction comes from the handler, which splits the line at single spaces: no token,
hence no key, contains the byte 0x20. -/
theorem builders_accept_any_key (key t2 t3 t4 : Bytes) (f e d : Int)
    (h2 : Atoi t2 = some f) (h3 : Atoi t3 = some e) (h4 : Atoi t4 = some d) :
    storageBuilder [ascii "set", key, t2, t3, t4]
      = .ok ⟨ascii "set", key, f, e, d, 0, false, []⟩ ∧
    retrievalBuilder [ascii "get", key] = some (.ok ⟨ascii "get", [key]⟩) ∧
    deleteBuilder [ascii "delete", key] = .ok ⟨ascii "delete", key, false⟩ ∧
    incDecBuilder [ascii "incr", key, t2] = .ok ⟨ascii "incr", key, f, false⟩ ∧
    touchBuilder [ascii "touch", key, t3] = .ok ⟨ascii "touch", key, e, false⟩ ∧
    (∀ line, ∀ t ∈ bytesSplit line, (32 : UInt8) ∉ t) := by
  have hs : ascii "set" ≠ ascii "cas" := by decide
  refine ⟨?_, rfl, rfl, ?_, ?_, bytesSplit_no_space⟩
  · simp [storageBuilder, h2, h3, h4, hs]
  · simp [incDecBuilder, h2]
  · simp [touchBuilder, h3]

/-- C27 (amended) at a concrete input: the empty key. -/
theorem builders_accept_any_key_witness :
    (Atoi (ascii "0") = some 0 ∧ Atoi (ascii "100") = some 100 ∧ Atoi (ascii "1") = some 1) ∧
    storageBuilder [ascii "set", [], ascii "0", ascii "100", ascii "1"]
      = .ok ⟨ascii "set", [], 0, 100, 1, 0, false, []⟩ :=
  ⟨⟨by decide, by decide, by decide⟩,
   (builders_accept_any_key [] (ascii "0") (ascii "100") (ascii "1") 0 100 1
      (by decide) (by decide) (by decide)).1⟩

/-! ## The parser of `server/parser.go` -/

/-- C30: `Parse` recognises opcodes by exact, case-sensitive match: for every string `line`,
`Parse(line)` is `Command{SET, nil}` iff `line == "set"`, `Command{GET, nil}` iff
`line == "get"`, and `Command{INVALID, nil}` for every other string (e.g. `Set` and
`invalid`); the `Key` field is always `nil`. -/
theorem Parse_exact_match (line : Bytes) :
    (server.Parse line = ⟨server.SET, none⟩ ↔ line = ascii "set") ∧
    (server.Parse line = ⟨server.GET, none⟩ ↔ line = ascii "get") ∧
    (line ≠ ascii "set" → line ≠ ascii "get" → server.Parse line = ⟨server.INVALID, none⟩) ∧
    (server.Parse line).Key = none ∧
    server.Parse (ascii "Set") = ⟨server.INVALID, none⟩ ∧
    server.Parse (ascii "invalid") = ⟨server.INVALID, none⟩ := by
  have hsg : ascii "set" ≠ ascii "get" := by decide
  refine ⟨?_, ?_, ?_, ?_, by decide, by decide⟩
  · by_cases h1 : line = ascii "set"
    · simp [server.Parse, server.mappings, server.parseLoop, h1]
    · by_cases h2 : line = ascii "get" <;>
        simp [server.Parse, server.mappings, server.parseLoop, h1, h2, server.SET, server.GET,
          server.INVALID]
  · by_cases h1 : line = ascii "set"
    · simp [server.Parse, server.mappings, server.parseLoop, h1, hsg, server.SET, server.GET]
    · by_cases h2 : line = ascii "get" <;>
        simp [server.Parse, server.mappings, server.parseLoop, h1, h2, server.SET, server.GET,
          server.INVALID, Ne.symm hsg]
  · intro h1 h2
    simp [server.Parse, server.mappings, server.parseLoop, h1, h2]
  · by_cases h1 : line = ascii "set"
    · simp [server.Parse, server.mappings, server.parseLoop, h1]
    · by_cases h2 : line = ascii "get" <;>
        simp [server.Parse, server.mappings, server.parseLoop, h1, h2, Ne.symm hsg]

/-! ## The tokenizer: `Next` -/

namespace tokenizer

theorem skipSpaces_eq (rest : Bytes) : ∀ k : Nat,
    skipSpaces rest k = k + (rest.takeWhile (fun b => b == 32)).length := by
  induction rest with
  | nil => intro k; simp [skipSpaces]
  | cons b rest ih =>
    intro k
    by_cases hb : b = 32
    · simp [skipSpaces, hb, ih]; omega
    · simp [skipSpaces, hb]

theorem findLoop_eq (rest : Bytes) : ∀ k : Nat,
    findLoop rest k =
      if rest.dropWhile (fun b => b != 32) = [] then none
      else some (k + (rest.takeWhile (fun b => b != 32)).length) := by
  induction rest with
  | nil => intro k; simp [findLoop]
  | cons b rest ih =>
    intro k
    by_cases hb : b = 32
    · simp [findLoop, hb]
    · simp [findLoop, hb, ih]
      split <;> simp; omega

theorem runsFrom_skip (rest : Bytes) :
    runsFrom rest [] = runsFrom (rest.dropWhile (fun b => b == 32)) [] := by
  induction rest with
  | nil => rfl
  | cons b rest ih =>
    by_cases hb : b = 32
    · simp [runsFrom, hb, ih]
    · rw [List.dropWhile_cons_of_neg (by simpa using hb)]

theorem runsFrom_run (rest : Bytes) : ∀ cur : Bytes, cur ≠ [] →
    runsFrom rest cur
      = (cur ++ rest.takeWhile (fun b => b != 32))
          :: runsFrom ((rest.dropWhile (fun b => b != 32)).drop 1) [] := by
  induction rest with
  | nil => intro cur hc; simp [runsFrom, hc]
  | cons b rest ih =>
    intro cur hc
    by_cases hb : b = 32
    · simp [runsFrom, hb, hc]
    · simp [runsFrom, hb, ih (cur ++ [b]) (by simp)]

theorem runsFrom_cons (b : UInt8) (rest : Bytes) (hb : b ≠ 32) :
    runsFrom (b :: rest) []
      = ((b :: rest).takeWhile (fun b => b != 32))
          :: runsFrom (((b :: rest).dropWhile (fun b => b != 32)).drop 1) [] := by
  simp [runsFrom, hb, runsFrom_run rest [b] (by simp)]

end tokenizer
namespace tokenizer

theorem drop_takeWhile_length {α : Type} (p : α → Bool) (l : List α) :
    l.drop (l.takeWhile p).length = l.dropWhile p := by
  induction l with
  | nil => rfl
  | cons a l ih => by_cases h : p a <;> simp [List.takeWhile, List.dropWhile, h, ih]

theorem take_takeWhile_length {α : Type} (p : α → Bool) (l : List α) :
    l.take (l.takeWhile p).length = l.takeWhile p := by
  induction l with
  | nil => rfl
  | cons a l ih => by_cases h : p a <;> simp [List.takeWhile, h, ih]

theorem drop_skipSpaces (base : Bytes) (pos : Nat) :
    base.drop (skipSpaces (base.drop pos) pos)
      = (base.drop pos).dropWhile (fun b => b == 32) := by
  rw [skipSpaces_eq, ← List.drop_drop, drop_takeWhile_length]

/-- `Next` at the end: only spaces remain after `pos`. -/
theorem Next_at_end (t : byteArrayTokenizer)
    (h : (t.base.drop t.pos).dropWhile (fun b => b == 32) = []) :
    t.Next.1 = [] ∧ t.Next.2.base = t.base ∧ t.Next.2.base.drop t.Next.2.pos = [] := by
  have hd := drop_skipSpaces t.base t.pos
  rw [h] at hd
  have hge : skipSpaces (t.base.drop t.pos) t.pos ≥ t.base.length :=
    List.drop_eq_nil_iff.mp hd
  have hN : t.Next = ([], ⟨skipSpaces (t.base.drop t.pos) t.pos, t.base⟩) := by
    simp only [byteArrayTokenizer.Next, if_pos hge]
  rw [hN]
  exact ⟨rfl, rfl, hd⟩

/-- `Next` before the end: the bytes after the spaces start with a non-space byte. -/
theorem Next_token (t : byteArrayTokenizer) (b : UInt8) (r : Bytes)
    (h : (t.base.drop t.pos).dropWhile (fun b => b == 32) = b :: r) :
    t.Next.1 = (b :: r).takeWhile (fun b => b != 32) ∧ t.Next.2.base = t.base ∧
      t.Next.2.base.drop t.Next.2.pos = ((b :: r).dropWhile (fun b => b != 32)).drop 1 := by
  have hd := drop_skipSpaces t.base t.pos
  rw [h] at hd
  generalize hp : skipSpaces (t.base.drop t.pos) t.pos = pos1 at hd
  have hlt : ¬ pos1 ≥ t.base.length := by
    intro hge
    rw [List.drop_eq_nil_iff.mpr hge] at hd
    cases hd
  have hlen : (b :: r).length = t.base.length - pos1 := by rw [← hd, List.length_drop]
  have hsplit := List.takeWhile_append_dropWhile (fun b => b != 32) (b :: r)
  have hi : (⟨pos1, t.base⟩ : byteArrayTokenizer).findNextSpace
      = pos1 + ((b :: r).takeWhile (fun b => b != 32)).length := by
    simp only [byteArrayTokenizer.findNextSpace, hd, findLoop_eq]
    by_cases he : (b :: r).dropWhile (fun b => b != 32) = []
    · rw [if_pos he]
      rw [he, List.append_nil] at hsplit
      rw [hsplit, hlen]
      simp only [Option.getD_none]
      omega
    · rw [if_neg he]; rfl
  have hN : t.Next = ((t.base.drop pos1).take
        (pos1 + ((b :: r).takeWhile (fun b => b != 32)).length - pos1),
      ⟨pos1 + ((b :: r).takeWhile (fun b => b != 32)).length + 1, t.base⟩) := by
    simp only [byteArrayTokenizer.Next, hp, if_neg hlt, hi]
  rw [hN]
  refine ⟨?_, rfl, ?_⟩
  · show (t.base.drop pos1).take _ = _
    rw [Nat.add_sub_cancel_left, hd, take_takeWhile_length]
  · show t.base.drop _ = _
    rw [show pos1 + ((b :: r).takeWhile (fun b => b != 32)).length + 1
        = pos1 + (((b :: r).takeWhile (fun b => b != 32)).length + 1) by omega,
      ← List.drop_drop, hd, ← List.drop_drop, drop_takeWhile_length]

theorem take_append_replicate_succ {α : Type} (l : List α) (x : α) (k : Nat) :
    (l ++ List.replicate (k + 1) x).take k = (l ++ List.replicate k x).take k := by
  rw [List.replicate_succ', ← List.append_assoc]
  exact List.take_append_of_le_length (by simp)

theorem nextN_eq (k : Nat) : ∀ t : byteArrayTokenizer,
    nextN k t = (runs (t.base.drop t.pos) ++ List.replicate k []).take k := by
  induction k with
  | zero => intro t; simp [nextN]
  | succ k ih =>
    intro t
    simp only [nextN, runs]
    rw [ih, runsFrom_skip (t.base.drop t.pos)]
    cases h : (t.base.drop t.pos).dropWhile (fun b => b == 32) with
    | nil =>
      obtain ⟨h1, h2, h3⟩ := Next_at_end t h
      rw [h2] at h3
      rw [h1, h2, h3]
      simp [runs, runsFrom, List.replicate_succ]
    | cons b r =>
      obtain ⟨h1, h2, h3⟩ := Next_token t b r h
      have hb : b ≠ 32 := by
        have := List.head_dropWhile_not (fun b => b == 32) (t.base.drop t.pos) (by simp [h])
        simpa [h] using this
      rw [h2] at h3
      rw [h1, h2, h3, runsFrom_cons b r hb]
      simp only [List.cons_append, List.take_succ_cons, runs]
      rw [take_append_replicate_succ]

end tokenizer
namespace tokenizer

theorem runsFrom_mem (rest : Bytes) : ∀ cur : Bytes, (32 : UInt8) ∉ cur →
    ∀ r ∈ runsFrom rest cur, r ≠ [] ∧ (32 : UInt8) ∉ r := by
  induction rest with
  | nil =>
    intro cur hc r hr
    by_cases h : cur = []
    · simp [runsFrom, h] at hr
    · simp [runsFrom, h] at hr
      subst hr
      exact ⟨h, hc⟩
  | cons b rest ih =>
    intro cur hc r hr
    by_cases hb : b = 32
    · by_cases h : cur = []
      · simp [runsFrom, hb, h] at hr
        exact ih [] (by simp) r hr
      · simp [runsFrom, hb, h] at hr
        rcases hr with hr | hr
        · subst hr; exact ⟨h, hc⟩
        · exact ih [] (by simp) r hr
    · simp only [runsFrom, if_neg hb] at hr
      exact ih (cur ++ [b]) (by simp [hc, Ne.symm hb]) r hr

theorem runsFrom_split (rest : Bytes) : ∀ cur : Bytes,
    runsFrom rest cur
      = (match bytesSplit rest with
         | [] => [cur]
         | t :: ts => (cur ++ t) :: ts).filter (fun t => decide (t ≠ [])) := by
  induction rest with
  | nil =>
    intro cur
    by_cases h : cur = [] <;> simp [runsFrom, bytesSplit, h]
  | cons b rest ih =>
    intro cur
    by_cases hb : b = 32
    · have h0 := ih []
      cases hs : bytesSplit rest with
      | nil =>
        rw [hs] at h0
        by_cases h : cur = [] <;> simp [runsFrom, bytesSplit, hb, h, hs, h0]
      | cons t ts =>
        rw [hs] at h0
        simp only [List.nil_append] at h0
        by_cases h : cur = [] <;> simp [runsFrom, bytesSplit, hb, h, hs, h0]
    · have h1 := ih (cur ++ [b])
      cases hs : bytesSplit rest with
      | nil =>
        rw [hs] at h1
        simp [runsFrom, bytesSplit, hb, hs, h1]
      | cons t ts =>
        rw [hs] at h1
        simp [runsFrom, bytesSplit, hb, hs, h1]

end tokenizer

/-- C28: for every byte string `base`, the successive results of `Next` on `New(base)` are
exactly the maximal runs of non-space bytes of `base`, in order of appearance, and once those
runs are exhausted every further call returns the empty string: the first `k` results are the
first `k` items of the runs followed by empty strings. The runs are the non-empty pieces
between the spaces of `base`; none is empty and none contains a space. E.g.
` abc  def   ghi    ` yields `abc`, `def`, `ghi` and then empty strings. -/
theorem Next_yields_runs (base : Bytes) (k : Nat) :
    tokenizer.nextN k (tokenizer.New base)
      = (tokenizer.runs base ++ List.replicate k []).take k ∧
    tokenizer.runs base = (bytesSplit base).filter (fun t => decide (t ≠ [])) ∧
    (∀ r ∈ tokenizer.runs base, r ≠ [] ∧ (32 : UInt8) ∉ r) ∧
    tokenizer.nextN 5 (tokenizer.New (ascii " abc  def   ghi    "))
      = [ascii "abc", ascii "def", ascii "ghi", [], []] ∧
    tokenizer.nextN 3 (tokenizer.New (ascii "abc def ghi"))
      = [ascii "abc", ascii "def", ascii "ghi"] := by
  refine ⟨?_, ?_, ?_, by decide, by decide⟩
  · rw [tokenizer.nextN_eq]
    rfl
  · have h := tokenizer.runsFrom_split base []
    cases hs : bytesSplit base with
    | nil => rw [hs] at h; simp [tokenizer.runs, h]
    | cons t ts => rw [hs] at h; simpa [tokenizer.runs] using h
  · exact tokenizer.runsFrom_mem base [] (by simp)

/-! ## The tokenizer: `FixedNext` -/

namespace tokenizer

/-- `FixedNext` when the position is within the string and `pos + n` does not overflow: the
chunk clamped to the end, and the position advanced by its length. -/
theorem FixedNext_ok (t : byteArrayTokenizer) (n : Int) (hp : t.pos ≤ t.base.length)
    (h0 : 0 ≤ n) (hmax : (t.pos : Int) + n ≤ maxInt) :
    t.FixedNext n = some ((t.base.drop t.pos).take n.toNat,
      ⟨t.pos + ((t.base.drop t.pos).take n.toNat).length, t.base⟩) := by
  have hlen : ((t.base.drop t.pos).take n.toNat).length = min n.toNat (t.base.length - t.pos) := by
    simp
  have hw : wrapInt ((t.pos : Int) + n) = t.pos + n := by
    apply wrapInt_of_range <;> simp only [maxInt] at hmax <;> omega
  unfold byteArrayTokenizer.FixedNext
  simp only [hw]
  by_cases hc : (t.pos : Int) + n ≥ t.base.length
  · have h1 : wrapInt ((t.pos : Int) + n - t.base.length) = t.pos + n - t.base.length := by
      apply wrapInt_of_range <;> simp only [maxInt] at hmax <;> omega
    have h2 : wrapInt (n - ((t.pos : Int) + n - t.base.length)) = t.base.length - t.pos := by
      rw [wrapInt_of_range] <;> simp only [maxInt] at hmax <;> omega
    have h3 : wrapInt ((t.pos : Int) + ((t.base.length : Int) - t.pos)) = t.base.length := by
      rw [wrapInt_of_range] <;> simp only [maxInt] at hmax <;> omega
    simp only [if_pos hc, h1, h2, h3, Int.toNat_ofNat]
    rw [if_pos ⟨by omega, le_refl _⟩]
    have hmin : min n.toNat (t.base.length - t.pos) = t.base.length - t.pos := by omega
    rw [hlen, hmin]
    have ht : (t.base.drop t.pos).take n.toNat = (t.base.drop t.pos).take (t.base.length - t.pos) := by
      rw [List.take_of_length_le (by simp; omega), List.take_of_length_le (by simp)]
    rw [ht]
    congr 3
    omega
  · have h3 : wrapInt ((t.pos : Int) + n) = t.pos + n := hw
    simp only [if_neg hc, h3]
    rw [if_pos ⟨by omega, by omega⟩]
    have hmin : min n.toNat (t.base.length - t.pos) = n.toNat := by omega
    rw [hlen, hmin]
    have e1 : ((t.pos : Int) + n).toNat - t.pos = n.toNat := by omega
    have e2 : ((t.pos : Int) + n).toNat = t.pos + n.toNat := by omega
    rw [e1, e2]

theorem fixedNextAll_eq (ns : List Int) : ∀ t : byteArrayTokenizer, t.pos ≤ t.base.length →
    (∀ n ∈ ns, 0 ≤ n ∧ (t.base.length : Int) + n ≤ maxInt) →
    fixedNextAll ns t = some (chunks t.base t.pos ns) := by
  induction ns with
  | nil => intro t _ _; rfl
  | cons n ns ih =>
    intro t hp h
    obtain ⟨h0, hmax⟩ := h n (by simp)
    have hstep := FixedNext_ok t n hp h0 (by omega)
    simp only [fixedNextAll, hstep, chunks]
    rw [ih ⟨t.pos + ((t.base.drop t.pos).take n.toNat).length, t.base⟩
      (by simp; omega) (fun m hm => h m (by simp [hm]))]
    rfl

theorem chunks_flatten (base : Bytes) (ns : List Int) : ∀ p : Nat,
    ∃ m, (chunks base p ns).flatten = (base.drop p).take m := by
  induction ns with
  | nil => intro p; exact ⟨0, by simp [chunks]⟩
  | cons n ns ih =>
    intro p
    obtain ⟨m, hm⟩ := ih (p + ((base.drop p).take n.toNat).length)
    refine ⟨((base.drop p).take n.toNat).length + m, ?_⟩
    simp only [chunks, List.flatten_cons, hm]
    rw [List.take_add, ← List.drop_drop]
    congr 1
    simp

end tokenizer

/-- The general statement of C29 for sizes that do not overflow: for every byte string `base`
and every sequence of sizes `n` with `0 ≤ n` and `len(base) + n` an `int`, the successive
calls of `FixedNext` on `New(base)` return the chunks `base[p : min(p + n, len(base))]`, where
`p` is the total length of the strings returned before; their concatenation is a leading part
of `base`. On `abc def ghi` the sizes 5, 2, 6, 10, 5 return `abc d`, `ef`, ` ghi` and two
empty strings. -/
theorem FixedNext_chunks (base : Bytes) (ns : List Int)
    (h : ∀ n ∈ ns, 0 ≤ n ∧ (base.length : Int) + n ≤ maxInt) :
    tokenizer.fixedNextAll ns (tokenizer.New base) = some (tokenizer.chunks base 0 ns) ∧
    (∃ m, (tokenizer.chunks base 0 ns).flatten = base.take m) ∧
    tokenizer.fixedNextAll [5, 2, 6, 10, 5] (tokenizer.New (ascii "abc def ghi"))
      = some [ascii "abc d", ascii "ef", ascii " ghi", [], []] := by
  refine ⟨tokenizer.fixedNextAll_eq ns (tokenizer.New base) (Nat.zero_le _) h, ?_, by decide⟩
  obtain ⟨m, hm⟩ := tokenizer.chunks_flatten base ns 0
  exact ⟨m, by simpa using hm⟩

/-- C29 (the code at the failing input): on `New("ab")` the call `FixedNext(1)` returns `a`
and leaves the position 1; the next call `FixedNext(9223372036854775807)`, a non-negative
size, fails at run time, because `t.pos+n` wraps around to a negative number, the size is not
clamped and the slice expression has a negative upper bound; the chunk
`base[1 : min(1 + n, 2)]` is `b`. -/
theorem FixedNext_overflow :
    (tokenizer.New (ascii "ab")).FixedNext 1 = some (ascii "a", ⟨1, ascii "ab"⟩) ∧
    wrapInt (1 + 9223372036854775807) = -9223372036854775808 ∧
    (⟨1, ascii "ab"⟩ : tokenizer.byteArrayTokenizer).FixedNext 9223372036854775807 = none ∧
    tokenizer.fixedNextAll [1, 9223372036854775807] (tokenizer.New (ascii "ab")) = none ∧
    tokenizer.chunks (ascii "ab") 0 [1, 9223372036854775807] = [ascii "a", ascii "b"] :=
  ⟨by decide, by decide, by decide, by decide, by decide⟩

/-! ## Bounds of the data-block read -/

/-- For a `dataSize` from 0 on whose buffer of `dataSize + 2` bytes can be allocated the
data-block read uses no negative length and no index out of range. -/
theorem readData_in_bounds (n : Int) (rd : ReadResult) (h0 : 0 ≤ n) (hmax : n + 2 ≤ maxAlloc)
    (hheap : n + 2 ≤ rd.heap) : readData n rd ≠ none := by
  have hw : wrapInt (n + 2) = n + 2 := by
    rw [wrapInt_of_range] <;> simp only [maxAlloc] at hmax <;> omega
  unfold readData
  simp only [hw]
  rw [if_neg (by omega)]
  split_ifs <;> simp
  omega

/-- For a negative `dataSize` below -2 the allocation `make([]byte, sc.dataSize+2)` has a
negative length. -/
theorem readData_negative (n : Int) (rd : ReadResult) (h : n < -2)
    (hmin : -9223372036854775808 ≤ n) : readData n rd = none := by
  have hw : wrapInt (n + 2) = n + 2 := by
    rw [wrapInt_of_range] <;> omega
  unfold readData
  simp only [hw]
  rw [if_pos (Or.inl (by omega))]

/-- For a `dataSize` whose buffer of `dataSize + 2` bytes is longer than `maxAlloc` the
allocation fails in `runtime.makeslice`, whatever the reader holds: with the line
`set k 0 100 281474976710656` the handler writes no reply. -/
theorem readData_above_maxAlloc (n : Int) (rd : ReadResult) (h : maxAlloc < n + 2)
    (hmax : n + 2 ≤ maxInt) :
    readData n rd = none ∧
    (handleLine simpleCache.empty 0 (ascii "set k 0 100 281474976710656")
      ⟨ascii "x\r\n", false, 65536⟩).isNone = true := by
  have hw : wrapInt (n + 2) = n + 2 := by
    rw [wrapInt_of_range] <;> simp only [maxAlloc] at h <;> simp only [maxInt] at hmax <;> omega
  refine ⟨?_, by decide⟩
  unfold readData
  simp only [hw]
  rw [if_pos (Or.inr (Or.inl (by omega)))]

/-- C32 (the code at the failing input): `storageBuilder` accepts the line
`set foo 0 100 -3` with `dataSize` -3, and the handler then fails at run time in
`make([]byte, sc.dataSize+2)`, whatever follows the line; with `dataSize` -2 and -1 it fails in
the slice expression `data[len(data)-2:]`, and with `dataSize` 9223372036854775807 the length
`sc.dataSize+2` wraps around to a negative number. -/
theorem negative_data_size_fails :
    storageBuilder (bytesSplit (ascii "set foo 0 100 -3"))
      = .ok ⟨ascii "set", ascii "foo", 0, 100, -3, 0, false, []⟩ ∧
    (∀ rd, readData (-3) rd = none) ∧
    (handleLine simpleCache.empty 0 (ascii "set foo 0 100 -3")
      ⟨ascii "abc\r\n", false, 65536⟩).isNone = true ∧
    storageBuilder (bytesSplit (ascii "set foo 0 100 -2"))
      = .ok ⟨ascii "set", ascii "foo", 0, 100, -2, 0, false, []⟩ ∧
    (handleLine simpleCache.empty 0 (ascii "set foo 0 100 -2")
      ⟨ascii "abc\r\n", false, 65536⟩).isNone = true ∧
    storageBuilder (bytesSplit (ascii "set foo 0 100 -1"))
      = .ok ⟨ascii "set", ascii "foo", 0, 100, -1, 0, false, []⟩ ∧
    (handleLine simpleCache.empty 0 (ascii "set foo 0 100 -1")
      ⟨ascii "abc\r\n", false, 65536⟩).isNone = true ∧
    wrapInt (9223372036854775807 + 2) = -9223372036854775807 ∧
    (handleLine simpleCache.empty 0 (ascii "set foo 0 100 9223372036854775807")
      ⟨ascii "abc\r\n", false, 65536⟩).isNone = true :=
  ⟨by decide, fun rd => readData_negative (-3) rd (by decide) (by decide), by decide, by decide,
   by decide, by decide, by decide, by decide, by decide⟩

/-! ## The position of the tokenizer -/

namespace tokenizer

theorem skipSpaces_le (rest : Bytes) : ∀ k : Nat, skipSpaces rest k ≤ k + rest.length := by
  induction rest with
  | nil => intro k; simp [skipSpaces]
  | cons b r ih =>
    intro k
    simp only [skipSpaces]
    split
    · have := ih (k + 1); simp only [List.length_cons]; omega
    · simp

theorem findLoop_le (rest : Bytes) :
    ∀ k i : Nat, findLoop rest k = some i → i < k + rest.length := by
  induction rest with
  | nil => intro k i h; simp [findLoop] at h
  | cons b r ih =>
    intro k i h
    simp only [findLoop] at h
    split at h
    · simp only [Option.some.injEq] at h; simp only [List.length_cons]; omega
    · have := ih (k + 1) i h; simp only [List.length_cons]; omega

/-- After `Next` the position is at most `len(base) + 1`, when it was so before. -/
theorem Next_pos_le (t : byteArrayTokenizer) (hp : t.pos ≤ t.base.length + 1) :
    t.Next.2.pos ≤ t.base.length + 1 ∧ t.Next.2.base = t.base := by
  have hs := skipSpaces_le (t.base.drop t.pos) t.pos
  simp only [List.length_drop] at hs
  simp only [byteArrayTokenizer.Next]
  split
  · constructor
    · simp only; omega
    · rfl
  · constructor
    · simp only [byteArrayTokenizer.findNextSpace]
      cases h : findLoop (List.drop (skipSpaces (List.drop t.pos t.base) t.pos) t.base)
          (skipSpaces (List.drop t.pos t.base) t.pos) with
      | none => simp
      | some i =>
        have := findLoop_le _ _ _ h
        simp only [List.length_drop] at this
        simp only [Option.getD_some]
        omega
    · rfl

end tokenizer

/-- C33 (the code at the failing input): on `New("abc")` the call `Next()` returns `abc` and
leaves the position 4, above `len(base)` = 3; the following call `FixedNext(0)` fails at run
time (the size is clamped to -1 and the slice is `base[4:3]`). After the three `Next()` calls of
the test on `abc def ghi` the position is 12, above the length 11. -/
theorem position_after_last_token :
    (tokenizer.New (ascii "abc")).Next = (ascii "abc", ⟨4, ascii "abc"⟩) ∧
    (ascii "abc").length = 3 ∧
    (⟨4, ascii "abc"⟩ : tokenizer.byteArrayTokenizer).FixedNext 0 = none ∧
    tokenizer.runCalls [tokenizer.Call.next, tokenizer.Call.fixedNext 0]
      (tokenizer.New (ascii "abc")) = none ∧
    (tokenizer.runCalls [tokenizer.Call.next, tokenizer.Call.next, tokenizer.Call.next]
      (tokenizer.New (ascii "abc def ghi"))).map (fun r => r.2.pos) = some 12 ∧
    (ascii "abc def ghi").length = 11 :=
  ⟨by decide, by decide, by decide, by decide, by decide, by decide⟩

end Memcached
